import Mathlib

/-!
Shallow embedding of the pairing authentication service of EchoHelix Bridge
(`internal/auth/service.go`) and proofs of its specified properties.

Go maps are modelled as association lists; `findA`, `setA`, `eraseA` model
map read, map assignment and `delete`.  Absolute instants (`time.Time`) are
naturals; `a.After(b)` is `b < a` and `a.Before(b)` is `a < b`.  Calls to
`time.Now()` inside one lock-protected operation are collapsed to a single
`now` parameter.  The cryptographic random source is a parameter: a list of
candidate byte strings for code generation, an `Option String` for token
generation (`none` models `crypto/rand` failure).
-/

namespace EchoHelix

/-- Go map read `m[k]` on an association list. -/
def findA {V : Type} (k : String) : List (String × V) → Option V
  | [] => none
  | p :: rest => if p.1 = k then some p.2 else findA k rest

/-- Go `delete(m, k)` on an association list. -/
def eraseA {V : Type} (k : String) : List (String × V) → List (String × V)
  | [] => []
  | p :: rest => if p.1 = k then eraseA k rest else p :: eraseA k rest

/-- Go map assignment `m[k] = v` on an association list. -/
def setA {V : Type} (k : String) (v : V) (l : List (String × V)) : List (String × V) :=
  eraseA k l ++ [(k, v)]

/-- `PairingCode` struct: an active pairing code. -/
structure PairingCode where
  code : String
  createdAt : Nat
  expiresAt : Nat
  deviceID : String
  used : Bool
deriving DecidableEq, Repr

/-- `Token` struct: an authentication token. -/
structure Token where
  value : String
  deviceID : String
  deviceName : String
  createdAt : Nat
  expiresAt : Nat
  lastUsedAt : Nat
  permissions : List String
deriving DecidableEq, Repr

/-- The error values of the service (`ErrInvalidCode` … `ErrTokenExpired`),
plus `generationFailure` for the wrapped error returned when the secure
random source fails. -/
inductive AuthError where
  | invalidCode
  | codeExpired
  | codeAlreadyUsed
  | invalidToken
  | tokenExpired
  | generationFailure
deriving DecidableEq, Repr

instance {ε α : Type} [DecidableEq ε] [DecidableEq α] : DecidableEq (Except ε α) :=
  fun a b =>
    match a, b with
    | .error e1, .error e2 =>
      if h : e1 = e2 then isTrue (h ▸ rfl) else isFalse (fun hh => h (Except.error.inj hh))
    | .ok t1, .ok t2 =>
      if h : t1 = t2 then isTrue (h ▸ rfl) else isFalse (fun hh => h (Except.ok.inj hh))
    | .error _, .ok _ => isFalse (fun hh => Except.noConfusion hh)
    | .ok _, .error _ => isFalse (fun hh => Except.noConfusion hh)

/-- `Service` state: the three tables plus configuration
(the mutex, callbacks and storage path are not part of the pure state). -/
structure Service where
  pairingCodes : List (String × PairingCode)
  tokens : List (String × Token)
  deviceTokens : List (String × String)
  codeLength : Nat
  codeExpiry : Nat
  tokenExpiry : Nat
  maxActiveDevices : Nat
deriving DecidableEq, Repr

/-- `ServiceConfig`. -/
structure ServiceConfig where
  codeLength : Nat
  codeExpiry : Nat
  tokenExpiry : Nat
  maxActiveDevices : Nat
deriving Repr

/-- `NewService`: zero fields fall back to the defaults; the store starts
empty (disk load and the sweeper goroutine are modelled as operations). -/
def newService (config : ServiceConfig) : Service :=
  { pairingCodes := []
    tokens := []
    deviceTokens := []
    codeLength := if config.codeLength = 0 then 6 else config.codeLength
    codeExpiry := if config.codeExpiry = 0 then 5 * 60 else config.codeExpiry
    tokenExpiry := if config.tokenExpiry = 0 then 30 * 24 * 3600 else config.tokenExpiry
    maxActiveDevices := if config.maxActiveDevices = 0 then 5 else config.maxActiveDevices }

/-- The charset of `generateNumericCode`. -/
def numericCharset : List Char := "0123456789".toList

/-- `generateNumericCode`: byte `i` of the random input selects
`charset[randomBytes[i] % 10]`; the result has exactly `length` characters.
Random bytes are naturals reduced mod 256 to their byte value. -/
def generateNumericCode (length : Nat) (randomBytes : List Nat) : String :=
  String.mk ((List.range length).map
    (fun i => numericCharset.getD (randomBytes.getD i 0 % 256 % 10) ' '))

/-- `cleanupExpiredCodesLocked`: drop every expired or used pairing code. -/
def cleanupExpiredCodesLocked (s : Service) (now : Nat) : Service :=
  { s with pairingCodes :=
      s.pairingCodes.filter (fun p => !(decide (p.2.expiresAt < now) || p.2.used)) }

/-- The collision-retry loop of `GeneratePairingCode`: successive outputs of
the random source are tried until one yields a code absent from the table;
an exhausted candidate list models failure of the random source. -/
def findFreshCode (s : Service) : List (List Nat) → Option String
  | [] => none
  | bytes :: rest =>
    let code := generateNumericCode s.codeLength bytes
    if (findA code s.pairingCodes).isSome then findFreshCode s rest else some code

/-- `GeneratePairingCode`: purge expired/used codes, generate a numeric code
retrying on collision, store it with expiry `now + codeExpiry`. -/
def generatePairingCode (s : Service) (now : Nat) (randomness : List (List Nat)) :
    Option PairingCode × Service :=
  let s1 := cleanupExpiredCodesLocked s now
  match findFreshCode s1 randomness with
  | none => (none, s1)
  | some code =>
    let pc : PairingCode :=
      { code := code, createdAt := now, expiresAt := now + s1.codeExpiry
        deviceID := "", used := false }
    (some pc, { s1 with pairingCodes := setA code pc s1.pairingCodes })

/-- `createTokenLocked`: supersede any token already bound to the device,
then (if the secure generator succeeds) insert the new token into both the
token table and the device index. -/
def createTokenLocked (s : Service) (now : Nat) (deviceID deviceName : String)
    (tokenGen : Option String) : Option Token × Service :=
  let s1 :=
    match findA deviceID s.deviceTokens with
    | some oldToken => { s with tokens := eraseA oldToken s.tokens }
    | none => s
  match tokenGen with
  | none => (none, s1)
  | some tokenValue =>
    let token : Token :=
      { value := tokenValue, deviceID := deviceID, deviceName := deviceName
        createdAt := now, expiresAt := now + s.tokenExpiry, lastUsedAt := now
        permissions := ["read", "write", "execute"] }
    (some token,
      { s1 with tokens := setA tokenValue token s1.tokens
                deviceTokens := setA deviceID tokenValue s1.deviceTokens })

/-- The comparison step of `removeOldestTokenLocked`: keep the entry with the
strictly smaller last-used instant, the incumbent on ties. -/
def olderOf (best q : String × Token) : String × Token :=
  if q.2.lastUsedAt < best.2.lastUsedAt then q else best

/-- The iteration of `removeOldestTokenLocked`: the entry with the smallest
last-used instant, strict comparison, first minimum encountered wins. -/
def oldestEntry : List (String × Token) → Option (String × Token)
  | [] => none
  | p :: rest => some (rest.foldl olderOf p)

/-- `removeOldestTokenLocked`: delete the oldest-by-last-use token and the
index row of its device. -/
def removeOldestTokenLocked (s : Service) : Service :=
  match oldestEntry s.tokens with
  | none => s
  | some (key, t) =>
    { s with tokens := eraseA key s.tokens
             deviceTokens := eraseA t.deviceID s.deviceTokens }

/-- `ValidatePairingCode`: check the code, enforce the device ceiling by
evicting the oldest token, consume and delete the code, then issue a token.
`tokenGen` is the outcome of `generateSecureToken`. -/
def validatePairingCode (s : Service) (now : Nat) (code deviceID deviceName : String)
    (tokenGen : Option String) : Except AuthError Token × Service :=
  match findA code s.pairingCodes with
  | none => (.error .invalidCode, s)
  | some pc =>
    if pc.expiresAt < now then
      (.error .codeExpired, { s with pairingCodes := eraseA code s.pairingCodes })
    else if pc.used then
      (.error .codeAlreadyUsed, s)
    else
      let activeCount := (s.tokens.filter (fun p => decide (now < p.2.expiresAt))).length
      let s1 := if s.maxActiveDevices ≤ activeCount then removeOldestTokenLocked s else s
      let pcUsed := { pc with used := true, deviceID := deviceID }
      let s2 := { s1 with pairingCodes := eraseA code (setA code pcUsed s1.pairingCodes) }
      match createTokenLocked s2 now deviceID deviceName tokenGen with
      | (none, s3) => (.error .generationFailure, s3)
      | (some token, s3) => (.ok token, s3)

/-- `ValidateToken`: absent value fails invalid, past expiry fails expired
and deletes both rows, otherwise the last-used instant advances to `now`. -/
def validateToken (s : Service) (now : Nat) (tokenValue : String) :
    Except AuthError Token × Service :=
  match findA tokenValue s.tokens with
  | none => (.error .invalidToken, s)
  | some token =>
    if token.expiresAt < now then
      (.error .tokenExpired,
        { s with tokens := eraseA tokenValue s.tokens
                 deviceTokens := eraseA token.deviceID s.deviceTokens })
    else
      let token1 := { token with lastUsedAt := now }
      (.ok token1, { s with tokens := setA tokenValue token1 s.tokens })

/-- `RefreshToken`: like `ValidateToken` but also slides the expiry to
`now + tokenExpiry`. -/
def refreshToken (s : Service) (now : Nat) (tokenValue : String) :
    Except AuthError Token × Service :=
  match findA tokenValue s.tokens with
  | none => (.error .invalidToken, s)
  | some token =>
    if token.expiresAt < now then
      (.error .tokenExpired,
        { s with tokens := eraseA tokenValue s.tokens
                 deviceTokens := eraseA token.deviceID s.deviceTokens })
    else
      let token1 := { token with expiresAt := now + s.tokenExpiry, lastUsedAt := now }
      (.ok token1, { s with tokens := setA tokenValue token1 s.tokens })

/-- `RevokeToken`. -/
def revokeToken (s : Service) (tokenValue : String) : Bool × Service :=
  match findA tokenValue s.tokens with
  | none => (false, s)
  | some token =>
    (true, { s with tokens := eraseA tokenValue s.tokens
                    deviceTokens := eraseA token.deviceID s.deviceTokens })

/-- `RevokeDevice`. -/
def revokeDevice (s : Service) (deviceID : String) : Bool × Service :=
  match findA deviceID s.deviceTokens with
  | none => (false, s)
  | some tokenValue =>
    (true, { s with tokens := eraseA tokenValue s.tokens
                    deviceTokens := eraseA deviceID s.deviceTokens })

/-- One wake of the `cleanupExpired` sweeper: remove expired or used codes,
remove expired tokens together with the index rows of their devices. -/
def sweepOnce (s : Service) (now : Nat) : Service :=
  let expiredTokens := s.tokens.filter (fun p => decide (p.2.expiresAt < now))
  { s with
    pairingCodes :=
      s.pairingCodes.filter (fun p => !(decide (p.2.expiresAt < now) || p.2.used))
    tokens := s.tokens.filter (fun p => !(decide (p.2.expiresAt < now)))
    deviceTokens :=
      s.deviceTokens.filter
        (fun r => !(expiredTokens.any (fun p => p.2.deviceID == r.1))) }

/-- `persistedState`: the document written by `SaveState`. -/
structure PersistedState where
  tokens : List (String × Token)
  deviceTokens : List (String × String)
  savedAt : Nat
deriving DecidableEq, Repr

/-- Pure core of `SaveState`: the document derived from the state (directory
creation, JSON encoding and the disk write are I/O around this). Tokens not
yet expired are copied, then the index rows whose target was copied. -/
def saveState (s : Service) (now : Nat) : PersistedState :=
  let savedTokens := s.tokens.filter (fun p => decide (now < p.2.expiresAt))
  { tokens := savedTokens
    deviceTokens := s.deviceTokens.filter (fun r => (findA r.2 savedTokens).isSome)
    savedAt := now }

/-- Pure core of `LoadState` on a decoded document: import the tokens still
unexpired at load time, then the index rows whose target token is present in
the (merged) token table. -/
def loadState (s : Service) (now : Nat) (st : PersistedState) : Service :=
  let newTokens :=
    (st.tokens.filter (fun p => decide (now < p.2.expiresAt))).foldl
      (fun acc p => setA p.1 p.2 acc) s.tokens
  let newDeviceTokens :=
    (st.deviceTokens.filter (fun r => (findA r.2 newTokens).isSome)).foldl
      (fun acc r => setA r.1 r.2 acc) s.deviceTokens
  { s with tokens := newTokens, deviceTokens := newDeviceTokens }

/-- Keys of an association list are distinct (always true of a Go map). -/
def KeysNodup {V : Type} (l : List (String × V)) : Prop :=
  (l.map Prod.fst).Nodup

instance {V : Type} (l : List (String × V)) : Decidable (KeysNodup l) :=
  inferInstanceAs (Decidable (l.map Prod.fst).Nodup)

/-- The mutual-consistency invariant as the specification states it: every
indexed device identifier names a token present in the table, and every
token is indexed under its device identifier. -/
def Consistent (s : Service) : Prop :=
  (∀ d v, findA d s.deviceTokens = some v → (findA v s.tokens).isSome) ∧
  (∀ v t, findA v s.tokens = some t → findA t.deviceID s.deviceTokens = some v)

/-- Inductive strengthening of `Consistent`: keys are distinct and each
index row points at a token bound to that very device. -/
def StrongInv (s : Service) : Prop :=
  KeysNodup s.tokens ∧ KeysNodup s.deviceTokens ∧
  (∀ d v, findA d s.deviceTokens = some v →
    ∃ t, findA v s.tokens = some t ∧ t.deviceID = d) ∧
  (∀ v t, findA v s.tokens = some t → findA t.deviceID s.deviceTokens = some v)

/-- Well-formedness of a persisted document: what `SaveState` always
produces — map keys distinct and the two tables mutually consistent. -/
def DocWF (st : PersistedState) : Prop :=
  KeysNodup st.tokens ∧ KeysNodup st.deviceTokens ∧
  (∀ d v, findA d st.deviceTokens = some v →
    ∃ t, findA v st.tokens = some t ∧ t.deviceID = d) ∧
  (∀ v t, findA v st.tokens = some t → findA t.deviceID st.deviceTokens = some v)

/-- The operations of the service, with the inputs each one takes. -/
inductive Op where
  | issueCode (now : Nat) (randomness : List (List Nat))
  | redeem (now : Nat) (code deviceID deviceName : String) (tokenGen : Option String)
  | validate (now : Nat) (value : String)
  | refresh (now : Nat) (value : String)
  | revoke (value : String)
  | revokeByDevice (deviceID : String)
  | evict
  | sweep (now : Nat)
  | load (now : Nat) (st : PersistedState)

/-- State reached after an operation (the returned value projected away). -/
def applyOp (s : Service) : Op → Service
  | .issueCode now rnd => (generatePairingCode s now rnd).2
  | .redeem now c d n g => (validatePairingCode s now c d n g).2
  | .validate now v => (validateToken s now v).2
  | .refresh now v => (refreshToken s now v).2
  | .revoke v => (revokeToken s v).2
  | .revokeByDevice d => (revokeDevice s d).2
  | .evict => removeOldestTokenLocked s
  | .sweep now => sweepOnce s now
  | .load now st => loadState s now st

/-- Environment assumptions under which an operation preserves consistency:
redemption is fed a successful, non-colliding token value (the spec assumes
the value space large enough that collisions are not checked), and loading
happens at construction, into an empty store, from a well-formed document. -/
def opOK (s : Service) : Op → Prop
  | .redeem _ _ _ _ g => ∃ v, g = some v ∧ findA v s.tokens = none
  | .load _ st => s.tokens = [] ∧ s.deviceTokens = [] ∧ DocWF st
  | _ => True

/-! ### Concrete states used to instantiate the theorems -/

/-- A live token bound to device `devA`, last used at instant 0. -/
def tokA : Token :=
  { value := "tA", deviceID := "devA", deviceName := "Phone A", createdAt := 0
    expiresAt := 100, lastUsedAt := 0, permissions := ["read", "write", "execute"] }

/-- A live token bound to device `devB`, last used at instant 1. -/
def tokB : Token :=
  { value := "tB", deviceID := "devB", deviceName := "Phone B", createdAt := 0
    expiresAt := 100, lastUsedAt := 1, permissions := ["read", "write", "execute"] }

/-- A token already expired by instant 50. -/
def tokE : Token :=
  { value := "tE", deviceID := "devE", deviceName := "Phone E", createdAt := 0
    expiresAt := 20, lastUsedAt := 0, permissions := ["read", "write", "execute"] }

/-- A token whose expiry (100) equals refresh-time 50 plus the TTL 50. -/
def tokR : Token :=
  { value := "tR", deviceID := "devR", deviceName := "Phone R", createdAt := 50
    expiresAt := 100, lastUsedAt := 50, permissions := ["read", "write", "execute"] }

/-- An unused pairing code expiring at instant 50. -/
def pcSample : PairingCode :=
  { code := "123456", createdAt := 0, expiresAt := 50, deviceID := "", used := false }

/-- One bound device, no pairing codes. -/
def svcC1 : Service :=
  { pairingCodes := [], tokens := [("tA", tokA)], deviceTokens := [("devA", "tA")]
    codeLength := 6, codeExpiry := 300, tokenExpiry := 50, maxActiveDevices := 5 }

/-- One valid pairing code, no bound devices. -/
def svcC2 : Service :=
  { pairingCodes := [("123456", pcSample)], tokens := [], deviceTokens := []
    codeLength := 6, codeExpiry := 300, tokenExpiry := 50, maxActiveDevices := 5 }

/-- At the ceiling: two bound devices, ceiling two, one valid code. -/
def svcC3 : Service :=
  { pairingCodes := [("123456", pcSample)]
    tokens := [("tA", tokA), ("tB", tokB)]
    deviceTokens := [("devA", "tA"), ("devB", "tB")]
    codeLength := 6, codeExpiry := 300, tokenExpiry := 50, maxActiveDevices := 2 }

/-- A token refreshed at the very instant its expiry was last set. -/
def svcC5 : Service :=
  { pairingCodes := [], tokens := [("tR", tokR)], deviceTokens := [("devR", "tR")]
    codeLength := 6, codeExpiry := 300, tokenExpiry := 50, maxActiveDevices := 5 }

/-- One live and one expired token, both indexed. -/
def svcC6 : Service :=
  { pairingCodes := [], tokens := [("tA", tokA), ("tE", tokE)]
    deviceTokens := [("devA", "tA"), ("devE", "tE")]
    codeLength := 6, codeExpiry := 300, tokenExpiry := 50, maxActiveDevices := 5 }

/-- One bound device and one valid code: redeeming for the same device with
a failing token generator strands the index row. -/
def svcC7 : Service :=
  { pairingCodes := [("123456", pcSample)], tokens := [("tA", tokA)]
    deviceTokens := [("devA", "tA")]
    codeLength := 6, codeExpiry := 300, tokenExpiry := 50, maxActiveDevices := 5 }

/-- The pairing code generated from random bytes 0..5 at instant 0 in a
service with code TTL 300. -/
def pcW : PairingCode :=
  { code := "012345", createdAt := 0, expiresAt := 300, deviceID := "", used := false }

/-- Configuration matching the sample services. -/
def cfgW : ServiceConfig :=
  { codeLength := 6, codeExpiry := 300, tokenExpiry := 50, maxActiveDevices := 5 }

/-- The token issued when `svcC2`'s code is redeemed at instant 10. -/
def c2tok : Token :=
  { value := "tokN", deviceID := "devA", deviceName := "Phone", createdAt := 10
    expiresAt := 60, lastUsedAt := 10, permissions := ["read", "write", "execute"] }

/-- The token issued when `svcC3`'s code is redeemed at instant 10. -/
def c3tok : Token :=
  { value := "tNew", deviceID := "devB", deviceName := "Phone B2", createdAt := 10
    expiresAt := 60, lastUsedAt := 10, permissions := ["read", "write", "execute"] }

/-! ### Association-list lemmas -/

theorem findA_append_none {V : Type} {k : String} {l1 : List (String × V)}
    (l2 : List (String × V)) (h : findA k l1 = none) :
    findA k (l1 ++ l2) = findA k l2 := by
  induction l1 with
  | nil => rfl
  | cons p rest ih =>
    by_cases hp : p.1 = k
    · simp [findA, hp] at h
    · simp only [findA, hp, if_false, List.cons_append] at h ⊢
      exact ih h

theorem findA_append_some {V : Type} {k : String} {l1 : List (String × V)}
    {v : V} (l2 : List (String × V)) (h : findA k l1 = some v) :
    findA k (l1 ++ l2) = some v := by
  induction l1 with
  | nil => simp [findA] at h
  | cons p rest ih =>
    by_cases hp : p.1 = k
    · simp only [findA, hp, if_true, List.cons_append] at h ⊢
      exact h
    · simp only [findA, hp, if_false, List.cons_append] at h ⊢
      exact ih h

theorem findA_eraseA_self {V : Type} (k : String) (l : List (String × V)) :
    findA k (eraseA k l) = none := by
  induction l with
  | nil => rfl
  | cons p rest ih =>
    by_cases hp : p.1 = k
    · simpa [eraseA, hp] using ih
    · simpa [eraseA, hp, findA] using ih

theorem findA_eraseA_ne {V : Type} {k k' : String} (h : k ≠ k')
    (l : List (String × V)) : findA k (eraseA k' l) = findA k l := by
  induction l with
  | nil => rfl
  | cons p rest ih =>
    simp only [eraseA]
    by_cases hp : p.1 = k'
    · rw [if_pos hp, ih]
      have hpk : ¬ p.1 = k := fun hh => h (hh.symm.trans hp)
      simp only [findA]
      rw [if_neg hpk]
    · rw [if_neg hp]
      simp only [findA]
      by_cases hpk : p.1 = k
      · rw [if_pos hpk, if_pos hpk]
      · rw [if_neg hpk, if_neg hpk, ih]

theorem findA_setA_self {V : Type} (k : String) (v : V) (l : List (String × V)) :
    findA k (setA k v l) = some v := by
  unfold setA
  rw [findA_append_none _ (findA_eraseA_self k l)]
  simp [findA]

theorem findA_setA_ne {V : Type} {k k' : String} (h : k ≠ k') (v : V)
    (l : List (String × V)) : findA k (setA k' v l) = findA k l := by
  unfold setA
  have hne : ¬ k' = k := fun hh => h hh.symm
  cases hv : findA k (eraseA k' l) with
  | none =>
    rw [findA_append_none _ hv]
    simp only [findA]
    rw [if_neg hne, ← findA_eraseA_ne h l, hv]
  | some w =>
    rw [findA_append_some _ hv, ← findA_eraseA_ne h l, hv]

theorem mem_of_findA_some {V : Type} {k : String} {v : V}
    {l : List (String × V)} (h : findA k l = some v) : (k, v) ∈ l := by
  induction l with
  | nil => simp [findA] at h
  | cons p rest ih =>
    by_cases hp : p.1 = k
    · simp only [findA] at h
      rw [if_pos hp] at h
      have hpk : p = (k, v) := by
        cases p
        simp_all
      rw [← hpk]
      exact List.mem_cons_self p rest
    · simp only [findA] at h
      rw [if_neg hp] at h
      exact List.mem_cons_of_mem _ (ih h)

theorem keysNodup_nil {V : Type} : KeysNodup ([] : List (String × V)) := by
  simp [KeysNodup]

theorem keysNodup_filter {V : Type} (q : String × V → Bool)
    {l : List (String × V)} (h : KeysNodup l) : KeysNodup (l.filter q) := by
  unfold KeysNodup at h ⊢
  exact ((List.filter_sublist l).map Prod.fst).nodup h

theorem eraseA_sublist {V : Type} (k : String) (l : List (String × V)) :
    List.Sublist (eraseA k l) l := by
  induction l with
  | nil => exact List.Sublist.refl _
  | cons p rest ih =>
    by_cases hp : p.1 = k
    · simp only [eraseA]
      rw [if_pos hp]
      exact ih.cons p
    · simp only [eraseA]
      rw [if_neg hp]
      exact ih.cons₂ p

theorem keysNodup_eraseA {V : Type} (k : String) {l : List (String × V)}
    (h : KeysNodup l) : KeysNodup (eraseA k l) :=
  (((eraseA_sublist k l).map Prod.fst).nodup h : _)

theorem not_mem_keys_eraseA {V : Type} (k : String) (l : List (String × V)) :
    k ∉ (eraseA k l).map Prod.fst := by
  induction l with
  | nil => simp [eraseA]
  | cons p rest ih =>
    by_cases hp : p.1 = k
    · simp only [eraseA]
      rw [if_pos hp]
      exact ih
    · simp only [eraseA]
      rw [if_neg hp]
      simp only [List.map_cons, List.mem_cons]
      intro hmem
      rcases hmem with h1 | h1
      · exact hp h1.symm
      · exact ih h1

theorem keysNodup_setA {V : Type} (k : String) (v : V)
    {l : List (String × V)} (h : KeysNodup l) : KeysNodup (setA k v l) := by
  unfold KeysNodup setA
  rw [List.map_append]
  refine List.Nodup.append (keysNodup_eraseA k h) (by simp) ?_
  intro a ha hb
  simp only [List.map_cons, List.map_nil, List.mem_singleton] at hb
  subst hb
  exact not_mem_keys_eraseA a l ha

theorem findA_eq_none_of_not_mem_keys {V : Type} {k : String}
    {l : List (String × V)} (h : k ∉ l.map Prod.fst) : findA k l = none := by
  induction l with
  | nil => rfl
  | cons p rest ih =>
    simp only [List.map_cons, List.mem_cons] at h
    push_neg at h
    have hp : ¬ p.1 = k := fun hh => h.1 hh.symm
    simp only [findA]
    rw [if_neg hp]
    exact ih h.2

theorem findA_some_of_mem {V : Type} {k : String} {v : V}
    {l : List (String × V)} (hnd : KeysNodup l) (h : (k, v) ∈ l) :
    findA k l = some v := by
  induction l with
  | nil => simp at h
  | cons p rest ih =>
    rcases List.mem_cons.mp h with h1 | h1
    · rw [← h1]
      simp [findA]
    · have hk : ¬ p.1 = k := by
        intro hh
        have hmem : k ∈ rest.map Prod.fst := List.mem_map.mpr ⟨(k, v), h1, rfl⟩
        simp only [KeysNodup, List.map_cons, List.nodup_cons] at hnd
        exact hnd.1 (hh ▸ hmem)
      simp only [findA]
      rw [if_neg hk]
      exact ih (List.Nodup.of_cons hnd) h1

theorem findA_filter_of_some {V : Type} {k : String} {v : V} (q : String × V → Bool)
    {l : List (String × V)} (hnd : KeysNodup l) (h : findA k l = some v) :
    findA k (l.filter q) = if q (k, v) then some v else none := by
  induction l with
  | nil => simp [findA] at h
  | cons p rest ih =>
    have hnd' : KeysNodup rest := List.Nodup.of_cons hnd
    by_cases hp : p.1 = k
    · simp only [findA] at h
      rw [if_pos hp] at h
      have hpk : p = (k, v) := by
        cases p
        simp_all
      rw [hpk]
      have hnone : k ∉ rest.map Prod.fst := by
        rw [hpk] at hnd
        simp only [KeysNodup, List.map_cons, List.nodup_cons] at hnd
        exact hnd.1
      by_cases hq : q (k, v) = true
      · rw [List.filter_cons, if_pos hq, if_pos hq]
        simp [findA]
      · rw [List.filter_cons, if_neg hq, if_neg hq]
        exact findA_eq_none_of_not_mem_keys
          (fun hm => hnone (((List.filter_sublist rest).map Prod.fst).mem hm))
    · simp only [findA] at h
      rw [if_neg hp] at h
      by_cases hq : q p = true
      · rw [List.filter_cons, if_pos hq]
        simp only [findA]
        rw [if_neg hp]
        exact ih hnd' h
      · rw [List.filter_cons, if_neg hq]
        exact ih hnd' h

theorem findA_filter_none {V : Type} {k : String} (q : String × V → Bool)
    {l : List (String × V)} (h : findA k l = none) :
    findA k (l.filter q) = none := by
  induction l with
  | nil => rfl
  | cons p rest ih =>
    by_cases hp : p.1 = k
    · simp only [findA] at h
      rw [if_pos hp] at h
      exact absurd h (by simp)
    · simp only [findA] at h
      rw [if_neg hp] at h
      by_cases hq : q p = true
      · rw [List.filter_cons, if_pos hq]
        simp only [findA]
        rw [if_neg hp]
        exact ih h
      · rw [List.filter_cons, if_neg hq]
        exact ih h

theorem eraseA_append {V : Type} (k : String) (l1 l2 : List (String × V)) :
    eraseA k (l1 ++ l2) = eraseA k l1 ++ eraseA k l2 := by
  induction l1 with
  | nil => rfl
  | cons p rest ih =>
    by_cases hp : p.1 = k
    · simp only [List.cons_append, eraseA, List.append_eq]
      rw [if_pos hp, if_pos hp]
      exact ih
    · simp only [List.cons_append, eraseA, List.append_eq]
      rw [if_neg hp, if_neg hp, ih, List.cons_append]

theorem eraseA_idem {V : Type} (k : String) (l : List (String × V)) :
    eraseA k (eraseA k l) = eraseA k l := by
  induction l with
  | nil => rfl
  | cons p rest ih =>
    by_cases hp : p.1 = k
    · simp only [eraseA]
      rw [if_pos hp]
      exact ih
    · simp only [eraseA]
      rw [if_neg hp, eraseA, if_neg hp, ih]

theorem eraseA_setA_self {V : Type} (k : String) (v : V) (l : List (String × V)) :
    eraseA k (setA k v l) = eraseA k l := by
  unfold setA
  rw [eraseA_append]
  have h2 : eraseA k [(k, v)] = ([] : List (String × V)) := by
    simp [eraseA]
  rw [h2, List.append_nil, eraseA_idem]

/-! ### Lemmas about the oldest-entry fold -/

theorem olderOf_eq_or (b q : String × Token) : olderOf b q = b ∨ olderOf b q = q := by
  unfold olderOf
  by_cases h : q.2.lastUsedAt < b.2.lastUsedAt
  · right
    rw [if_pos h]
  · left
    rw [if_neg h]

theorem olderOf_le_left (b q : String × Token) :
    (olderOf b q).2.lastUsedAt ≤ b.2.lastUsedAt := by
  unfold olderOf
  by_cases h : q.2.lastUsedAt < b.2.lastUsedAt
  · rw [if_pos h]
    exact Nat.le_of_lt h
  · rw [if_neg h]

theorem olderOf_le_right (b q : String × Token) :
    (olderOf b q).2.lastUsedAt ≤ q.2.lastUsedAt := by
  unfold olderOf
  by_cases h : q.2.lastUsedAt < b.2.lastUsedAt
  · rw [if_pos h]
  · rw [if_neg h]
    exact Nat.le_of_not_lt h

theorem foldl_olderOf_mem (rest : List (String × Token)) :
    ∀ p : String × Token, rest.foldl olderOf p = p ∨ rest.foldl olderOf p ∈ rest := by
  induction rest with
  | nil =>
    intro p
    left
    rfl
  | cons q rest ih =>
    intro p
    simp only [List.foldl_cons]
    rcases ih (olderOf p q) with h | h
    · rcases olderOf_eq_or p q with h2 | h2
      · left
        rw [h, h2]
      · right
        rw [h, h2]
        exact List.mem_cons_self q rest
    · right
      exact List.mem_cons_of_mem q h

theorem foldl_olderOf_le_init (rest : List (String × Token)) :
    ∀ p : String × Token, (rest.foldl olderOf p).2.lastUsedAt ≤ p.2.lastUsedAt := by
  induction rest with
  | nil =>
    intro p
    exact Nat.le_refl _
  | cons q rest ih =>
    intro p
    simp only [List.foldl_cons]
    exact Nat.le_trans (ih (olderOf p q)) (olderOf_le_left p q)

theorem foldl_olderOf_le_mem (rest : List (String × Token)) :
    ∀ p q : String × Token, q ∈ rest →
      (rest.foldl olderOf p).2.lastUsedAt ≤ q.2.lastUsedAt := by
  induction rest with
  | nil =>
    intro p q hq
    simp at hq
  | cons r rest ih =>
    intro p q hq
    simp only [List.foldl_cons]
    rcases List.mem_cons.mp hq with h1 | h1
    · rw [h1]
      exact Nat.le_trans (foldl_olderOf_le_init rest (olderOf p r)) (olderOf_le_right p r)
    · exact ih (olderOf p r) q h1

theorem oldestEntry_mem {l : List (String × Token)} {p : String × Token}
    (h : oldestEntry l = some p) : p ∈ l := by
  cases l with
  | nil => simp [oldestEntry] at h
  | cons q rest =>
    simp only [oldestEntry, Option.some.injEq] at h
    rcases foldl_olderOf_mem rest q with h1 | h1
    · rw [← h, h1]
      exact List.mem_cons_self q rest
    · rw [← h]
      exact List.mem_cons_of_mem q h1

theorem oldestEntry_min {l : List (String × Token)} {p : String × Token}
    (h : oldestEntry l = some p) :
    ∀ q ∈ l, p.2.lastUsedAt ≤ q.2.lastUsedAt := by
  cases l with
  | nil => simp [oldestEntry] at h
  | cons r rest =>
    simp only [oldestEntry, Option.some.injEq] at h
    intro q hq
    rcases List.mem_cons.mp hq with h1 | h1
    · rw [← h, h1]
      exact foldl_olderOf_le_init rest r
    · rw [← h]
      exact foldl_olderOf_le_mem rest r q h1

theorem oldestEntry_isSome {l : List (String × Token)} (h : l ≠ []) :
    (oldestEntry l).isSome := by
  cases l with
  | nil => exact absurd rfl h
  | cons q rest => simp [oldestEntry]

/-! ### Lemmas about folding map assignments -/

theorem findA_foldl_setA_none {V : Type} {k : String} {l : List (String × V)}
    (h : findA k l = none) :
    ∀ acc : List (String × V),
      findA k (l.foldl (fun a p => setA p.1 p.2 a) acc) = findA k acc := by
  induction l with
  | nil =>
    intro acc
    rfl
  | cons p rest ih =>
    intro acc
    simp only [findA] at h
    by_cases hp : p.1 = k
    · rw [if_pos hp] at h
      exact absurd h (by simp)
    · rw [if_neg hp] at h
      simp only [List.foldl_cons]
      rw [ih h (setA p.1 p.2 acc), findA_setA_ne (fun hh => hp hh.symm) p.2 acc]

theorem findA_foldl_setA_some {V : Type} {k : String} {v : V} {l : List (String × V)}
    (hnd : KeysNodup l) (h : findA k l = some v) :
    ∀ acc : List (String × V),
      findA k (l.foldl (fun a p => setA p.1 p.2 a) acc) = some v := by
  induction l with
  | nil =>
    intro acc
    simp [findA] at h
  | cons p rest ih =>
    intro acc
    have hnd' : KeysNodup rest := List.Nodup.of_cons hnd
    simp only [findA] at h
    simp only [List.foldl_cons]
    by_cases hp : p.1 = k
    · rw [if_pos hp] at h
      have hnone : findA k rest = none := by
        apply findA_eq_none_of_not_mem_keys
        simp only [KeysNodup, List.map_cons, List.nodup_cons] at hnd
        rw [← hp]
        exact hnd.1
      rw [findA_foldl_setA_none hnone (setA p.1 p.2 acc), hp, findA_setA_self, h]
    · rw [if_neg hp] at h
      exact ih hnd' h (setA p.1 p.2 acc)

/-! ### Reduction lemmas for the redemption path -/

theorem removeOldest_proj (s : Service) :
    (removeOldestTokenLocked s).pairingCodes = s.pairingCodes ∧
    (removeOldestTokenLocked s).codeLength = s.codeLength ∧
    (removeOldestTokenLocked s).codeExpiry = s.codeExpiry ∧
    (removeOldestTokenLocked s).tokenExpiry = s.tokenExpiry ∧
    (removeOldestTokenLocked s).maxActiveDevices = s.maxActiveDevices := by
  unfold removeOldestTokenLocked
  cases h : oldestEntry s.tokens with
  | none => exact ⟨rfl, rfl, rfl, rfl, rfl⟩
  | some p =>
    cases p
    exact ⟨rfl, rfl, rfl, rfl, rfl⟩

theorem removeOldest_eq_of_oldest (s : Service) (k : String) (t : Token)
    (h : oldestEntry s.tokens = some (k, t)) :
    removeOldestTokenLocked s =
      { s with tokens := eraseA k s.tokens
               deviceTokens := eraseA t.deviceID s.deviceTokens } := by
  unfold removeOldestTokenLocked
  rw [h]

theorem removeOldest_eq_of_none (s : Service) (h : oldestEntry s.tokens = none) :
    removeOldestTokenLocked s = s := by
  unfold removeOldestTokenLocked
  rw [h]

theorem ifEvict_proj (s : Service) (c : Prop) [Decidable c] :
    (if c then removeOldestTokenLocked s else s).pairingCodes = s.pairingCodes ∧
    (if c then removeOldestTokenLocked s else s).codeLength = s.codeLength ∧
    (if c then removeOldestTokenLocked s else s).codeExpiry = s.codeExpiry ∧
    (if c then removeOldestTokenLocked s else s).tokenExpiry = s.tokenExpiry ∧
    (if c then removeOldestTokenLocked s else s).maxActiveDevices = s.maxActiveDevices := by
  by_cases h : c
  · rw [if_pos h]
    exact removeOldest_proj s
  · rw [if_neg h]
    exact ⟨rfl, rfl, rfl, rfl, rfl⟩

/-- Shape of a successful redemption: under a stored, unexpired, unused code
and a successful token generator, `ValidatePairingCode` returns a fresh
token, with the post state described relative to `s1`, the state after the
capacity check (which runs first). -/
theorem validatePairingCode_success
    (s s1 : Service) (now : Nat) (code deviceID deviceName v : String) (pc : PairingCode)
    (hpc : findA code s.pairingCodes = some pc)
    (hexp : ¬ pc.expiresAt < now)
    (hused : pc.used = false)
    (hs1 : s1 =
      if s.maxActiveDevices ≤
          (s.tokens.filter (fun p => decide (now < p.2.expiresAt))).length
      then removeOldestTokenLocked s else s) :
    ∃ t s3, validatePairingCode s now code deviceID deviceName (some v) = (.ok t, s3) ∧
      t.value = v ∧ t.deviceID = deviceID ∧ t.deviceName = deviceName ∧
      t.createdAt = now ∧ t.expiresAt = now + s.tokenExpiry ∧ t.lastUsedAt = now ∧
      t.permissions = ["read", "write", "execute"] ∧
      s3.pairingCodes = eraseA code s.pairingCodes ∧
      s3.deviceTokens = setA deviceID v s1.deviceTokens ∧
      s3.codeLength = s.codeLength ∧ s3.codeExpiry = s.codeExpiry ∧
      s3.tokenExpiry = s.tokenExpiry ∧ s3.maxActiveDevices = s.maxActiveDevices ∧
      (findA deviceID s1.deviceTokens = none → s3.tokens = setA v t s1.tokens) ∧
      (∀ old, findA deviceID s1.deviceTokens = some old →
        s3.tokens = setA v t (eraseA old s1.tokens)) := by
  have husedF : ¬ pc.used = true := by
    simp [hused]
  have hproj := ifEvict_proj s
    (s.maxActiveDevices ≤ (s.tokens.filter (fun p => decide (now < p.2.expiresAt))).length)
  rw [← hs1] at hproj
  have hpc1 : s1.pairingCodes = s.pairingCodes := hproj.1
  have hte1 : s1.tokenExpiry = s.tokenExpiry := hproj.2.2.2.1
  unfold validatePairingCode
  simp only [hpc, if_neg hexp, if_neg husedF]
  rw [← hs1]
  generalize hG : ({ s1 with pairingCodes :=
    (eraseA code (setA code { pc with used := true, deviceID := deviceID }
      s1.pairingCodes)) } : Service) = s2
  have hdt2 : s2.deviceTokens = s1.deviceTokens := by
    rw [← hG]
  have htk2 : s2.tokens = s1.tokens := by
    rw [← hG]
  have hte2 : s2.tokenExpiry = s1.tokenExpiry := by
    rw [← hG]
  have hcl2 : s2.codeLength = s1.codeLength := by
    rw [← hG]
  have hce2 : s2.codeExpiry = s1.codeExpiry := by
    rw [← hG]
  have hmx2 : s2.maxActiveDevices = s1.maxActiveDevices := by
    rw [← hG]
  have hpcs2 : s2.pairingCodes = eraseA code s.pairingCodes := by
    rw [← hG, ← hpc1]
    exact eraseA_setA_self code _ s1.pairingCodes
  unfold createTokenLocked
  cases hd : findA deviceID s2.deviceTokens with
  | none =>
    refine ⟨_, _, rfl, rfl, rfl, rfl, rfl, ?_, rfl, rfl, ?_, ?_, ?_, ?_, ?_, ?_, ?_, ?_⟩
    · rw [hte2, hte1]
    · exact hpcs2
    · rw [hdt2]
    · rw [hcl2, hproj.2.1]
    · rw [hce2, hproj.2.2.1]
    · rw [hte2, hte1]
    · rw [hmx2, hproj.2.2.2.2]
    · intro _
      rw [htk2, hte2, hte1]
    · intro old hold
      rw [hdt2] at hd
      rw [hd] at hold
      exact Option.noConfusion hold
  | some old0 =>
    refine ⟨_, _, rfl, rfl, rfl, rfl, rfl, ?_, rfl, rfl, ?_, ?_, ?_, ?_, ?_, ?_, ?_, ?_⟩
    · rw [hte2, hte1]
    · exact hpcs2
    · rw [hdt2]
    · rw [hcl2, hproj.2.1]
    · rw [hce2, hproj.2.2.1]
    · rw [hte2, hte1]
    · rw [hmx2, hproj.2.2.2.2]
    · intro h0
      rw [hdt2] at hd
      rw [hd] at h0
      exact Option.noConfusion h0
    · intro old hold
      rw [hdt2] at hd
      rw [hd] at hold
      injection hold with hko
      rw [← hko, htk2, hte2, hte1]

/-! ### Claim C1: semantics of ValidateToken -/

/-- Claim C1: for every credential value, `ValidateToken` fails with
`InvalidToken` when no credential with that value is stored; fails with
`TokenExpired` and removes both the credential entry and its device-index
row when the stored credential's expiry is in the past; and otherwise
advances the credential's last-used time to `now` and returns the
credential. -/
theorem validateToken_spec (s : Service) (now : Nat) (value : String) :
    (findA value s.tokens = none →
      validateToken s now value = (.error .invalidToken, s)) ∧
    (∀ t : Token, findA value s.tokens = some t → t.expiresAt < now →
      validateToken s now value = (.error .tokenExpired,
        { s with tokens := eraseA value s.tokens
                 deviceTokens := eraseA t.deviceID s.deviceTokens })) ∧
    (∀ t : Token, findA value s.tokens = some t → ¬ t.expiresAt < now →
      validateToken s now value = (.ok { t with lastUsedAt := now },
        { s with tokens := setA value { t with lastUsedAt := now } s.tokens })) := by
  refine ⟨?_, ?_, ?_⟩
  · intro h
    simp only [validateToken, h]
  · intro t ht hlt
    simp only [validateToken, ht, if_pos hlt]
  · intro t ht hlt
    simp only [validateToken, ht, if_neg hlt]

theorem validateToken_spec_witness :
    validateToken svcC1 10 "zz" = (.error .invalidToken, svcC1) ∧
    validateToken svcC1 200 "tA" = (.error .tokenExpired,
      { svcC1 with tokens := eraseA "tA" svcC1.tokens
                   deviceTokens := eraseA tokA.deviceID svcC1.deviceTokens }) ∧
    validateToken svcC1 10 "tA" = (.ok { tokA with lastUsedAt := 10 },
      { svcC1 with tokens := setA "tA" { tokA with lastUsedAt := 10 } svcC1.tokens }) :=
  ⟨(validateToken_spec svcC1 10 "zz").1 (by decide),
   (validateToken_spec svcC1 200 "tA").2.1 tokA (by decide) (by decide),
   (validateToken_spec svcC1 10 "tA").2.2 tokA (by decide) (by decide)⟩

/-! ### Claim C5: semantics of RefreshToken -/

/-- Claim C5 (amended): `RefreshToken` on a stored, unexpired credential
sets its expiry to `now` plus the credential TTL and advances its last-used
time, returning the credential (a strict increase of the expiry exactly
when the stored expiry was below `now + tokenExpiry`); on a stored, expired
credential it fails with `TokenExpired` and removes the credential and its
device-index row; on an absent value it fails with `InvalidToken`. -/
theorem refreshToken_spec (s : Service) (now : Nat) (value : String) :
    (findA value s.tokens = none →
      refreshToken s now value = (.error .invalidToken, s)) ∧
    (∀ t : Token, findA value s.tokens = some t → t.expiresAt < now →
      refreshToken s now value = (.error .tokenExpired,
        { s with tokens := eraseA value s.tokens
                 deviceTokens := eraseA t.deviceID s.deviceTokens })) ∧
    (∀ t : Token, findA value s.tokens = some t → ¬ t.expiresAt < now →
      refreshToken s now value =
        (.ok { t with expiresAt := now + s.tokenExpiry, lastUsedAt := now },
         { s with tokens :=
            (setA value { t with expiresAt := now + s.tokenExpiry, lastUsedAt := now }
              s.tokens) })) := by
  refine ⟨?_, ?_, ?_⟩
  · intro h
    simp only [refreshToken, h]
  · intro t ht hlt
    simp only [refreshToken, ht, if_pos hlt]
  · intro t ht hlt
    simp only [refreshToken, ht, if_neg hlt]

theorem refreshToken_spec_witness :
    refreshToken svcC1 10 "zz" = (.error .invalidToken, svcC1) ∧
    refreshToken svcC1 200 "tA" = (.error .tokenExpired,
      { svcC1 with tokens := eraseA "tA" svcC1.tokens
                   deviceTokens := eraseA tokA.deviceID svcC1.deviceTokens }) ∧
    refreshToken svcC1 10 "tA" =
      (.ok { tokA with expiresAt := 60, lastUsedAt := 10 },
       { svcC1 with tokens :=
          (setA "tA" { tokA with expiresAt := 60, lastUsedAt := 10 } svcC1.tokens) }) :=
  ⟨(refreshToken_spec svcC1 10 "zz").1 (by decide),
   (refreshToken_spec svcC1 200 "tA").2.1 tokA (by decide) (by decide),
   (refreshToken_spec svcC1 10 "tA").2.2 tokA (by decide) (by decide)⟩

/-- Claim C5, counterexample to strictness: `tokR` is stored and unexpired
at instant 50, yet refreshing it at 50 returns expiry `50 + 50 = 100`,
equal to — not strictly greater than — its stored expiry. -/
theorem refreshToken_not_strictly_increasing :
    findA "tR" svcC5.tokens = some tokR ∧
    ¬ tokR.expiresAt < 50 ∧
    (refreshToken svcC5 50 "tR").1 = .ok { tokR with expiresAt := 100, lastUsedAt := 50 } ∧
    ¬ tokR.expiresAt < 100 := by
  decide

/-! ### Claim C9: expired pairing codes -/

/-- Claim C9: redeeming a stored code at a time strictly after its expiry
instant fails with `CodeExpired` and removes the code from the table, so a
subsequent redemption attempt with the same code fails with `InvalidCode`. -/
theorem redeemExpiredCode_spec (s : Service) (now now2 : Nat)
    (code d n d2 n2 : String) (g g2 : Option String) (pc : PairingCode)
    (hpc : findA code s.pairingCodes = some pc)
    (hexp : pc.expiresAt < now) :
    validatePairingCode s now code d n g =
      (.error .codeExpired, { s with pairingCodes := eraseA code s.pairingCodes }) ∧
    validatePairingCode { s with pairingCodes := eraseA code s.pairingCodes }
        now2 code d2 n2 g2 =
      (.error .invalidCode, { s with pairingCodes := eraseA code s.pairingCodes }) := by
  constructor
  · simp only [validatePairingCode, hpc, if_pos hexp]
  · have h2 : findA code (eraseA code s.pairingCodes) = none :=
      findA_eraseA_self code s.pairingCodes
    simp only [validatePairingCode, h2]

theorem redeemExpiredCode_spec_witness :
    validatePairingCode svcC2 60 "123456" "devA" "Phone" none =
      (.error .codeExpired, { svcC2 with pairingCodes := eraseA "123456" svcC2.pairingCodes }) ∧
    validatePairingCode { svcC2 with pairingCodes := eraseA "123456" svcC2.pairingCodes }
        61 "123456" "devA" "Phone" none =
      (.error .invalidCode, { svcC2 with pairingCodes := eraseA "123456" svcC2.pairingCodes }) :=
  redeemExpiredCode_spec svcC2 60 61 "123456" "devA" "Phone" "devA" "Phone" none none
    pcSample (by decide) (by decide)

/-! ### Claim C2: single-use redemption -/

/-- Claim C2, counterexample to the stated error: redeeming `svcC2`'s valid
code once succeeds, but redeeming it a second time fails with `InvalidCode`
— not `CodeAlreadyUsed` — because a successful redemption deletes the code
from the table. -/
theorem redeem_reuse_fails_invalidCode :
    (validatePairingCode svcC2 10 "123456" "devA" "Phone" (some "tokN")).1 = .ok c2tok ∧
    (validatePairingCode (validatePairingCode svcC2 10 "123456" "devA" "Phone" (some "tokN")).2
        11 "123456" "devB" "Phone B" (some "tokM")).1 = .error .invalidCode ∧
    (.error .invalidCode : Except AuthError Token) ≠ .error .codeAlreadyUsed := by
  decide

/-- Claim C2 (amended): redeeming a valid, unused, unexpired code exactly
once succeeds and returns a credential bound to the given device identifier
with permission set read/write/execute; redeeming the same code a second
time fails with the `InvalidCode` error, the code having been deleted from
the table by the successful redemption. -/
theorem redeem_single_use (s : Service) (now now2 : Nat)
    (code deviceID deviceName d2 n2 v : String) (g2 : Option String) (pc : PairingCode)
    (hpc : findA code s.pairingCodes = some pc)
    (hexp : ¬ pc.expiresAt < now)
    (hused : pc.used = false) :
    ∃ t s3, validatePairingCode s now code deviceID deviceName (some v) = (.ok t, s3) ∧
      t.deviceID = deviceID ∧ t.value = v ∧
      t.permissions = ["read", "write", "execute"] ∧
      (validatePairingCode s3 now2 code d2 n2 g2).1 = .error .invalidCode := by
  obtain ⟨t, s3, hres, hv, hdev, hnm, hca, hex, hlu, hperm, hpcs, hdt, hcl, hce, hte,
    hmx, hnoneT, hsomeT⟩ :=
    validatePairingCode_success s _ now code deviceID deviceName v pc hpc hexp hused rfl
  refine ⟨t, s3, hres, hdev, hv, hperm, ?_⟩
  have hnone : findA code s3.pairingCodes = none := by
    rw [hpcs]
    exact findA_eraseA_self code s.pairingCodes
  simp only [validatePairingCode, hnone]

theorem redeem_single_use_witness :
    ∃ t s3, validatePairingCode svcC2 10 "123456" "devA" "Phone" (some "tokN") = (.ok t, s3) ∧
      t.deviceID = "devA" ∧ t.value = "tokN" ∧
      t.permissions = ["read", "write", "execute"] ∧
      (validatePairingCode s3 11 "123456" "devB" "PB" none).1 = .error .invalidCode :=
  redeem_single_use svcC2 10 11 "123456" "devA" "Phone" "devB" "PB" "tokN" none
    pcSample (by decide) (by decide) (by decide)

/-! ### Claim C3: order of capacity check and supersession -/

/-- Claim C3, counterexample: `svcC3` is exactly at the ceiling (2 of 2)
and the redeeming device `devB` is already bound, yet redeeming evicts the
other device's credential `tA`: the capacity check runs before the
supersession step, not after. -/
theorem redeem_at_ceiling_evicts_other_device :
    (svcC3.tokens.filter (fun p => decide ((10 : Nat) < p.2.expiresAt))).length
      = svcC3.maxActiveDevices ∧
    findA "devB" svcC3.deviceTokens = some "tB" ∧
    (validatePairingCode svcC3 10 "123456" "devB" "Phone B2" (some "tNew")).1 = .ok c3tok ∧
    findA "tA" (validatePairingCode svcC3 10 "123456" "devB" "Phone B2"
      (some "tNew")).2.tokens = none := by
  decide

/-- Claim C3 (amended): in the issuance step of Redeem the capacity check
precedes supersession: non-expired credentials are counted, and if the
ceiling is reached the oldest-by-last-use credential is evicted, before the
redeeming device's existing binding is removed; consequently, when the
store is at the ceiling, the stored credential with minimal last-used time
is evicted even when the redeeming device is one of the bound devices, so
another device's credential can be removed by that redemption. -/
theorem redeem_capacity_before_supersession
    (s : Service) (now : Nat) (code deviceID deviceName v : String) (pc : PairingCode)
    (k : String) (t : Token)
    (hnd : KeysNodup s.tokens)
    (hpc : findA code s.pairingCodes = some pc)
    (hexp : ¬ pc.expiresAt < now)
    (hused : pc.used = false)
    (hcap : s.maxActiveDevices ≤
      (s.tokens.filter (fun p => decide (now < p.2.expiresAt))).length)
    (hold : oldestEntry s.tokens = some (k, t))
    (hvk : v ≠ k)
    (hself : ∀ w, findA deviceID s.deviceTokens = some w → w ≠ k) :
    ∃ tok s3, validatePairingCode s now code deviceID deviceName (some v) = (.ok tok, s3) ∧
      findA k s.tokens = some t ∧
      (∀ q ∈ s.tokens, t.lastUsedAt ≤ q.2.lastUsedAt) ∧
      findA k s3.tokens = none := by
  have hs1 : ({ s with tokens := eraseA k s.tokens
                       deviceTokens := eraseA t.deviceID s.deviceTokens } : Service) =
      (if s.maxActiveDevices ≤
          (s.tokens.filter (fun p => decide (now < p.2.expiresAt))).length
       then removeOldestTokenLocked s else s) := by
    rw [if_pos hcap]
    exact (removeOldest_eq_of_oldest s k t hold).symm
  obtain ⟨tok, s3, hres, hv, hdev, hnm, hca, hex, hlu, hperm, hpcs, hdt, hcl, hce, hte,
    hmx, hnoneT, hsomeT⟩ :=
    validatePairingCode_success s _ now code deviceID deviceName v pc hpc hexp hused hs1
  refine ⟨tok, s3, hres, findA_some_of_mem hnd (oldestEntry_mem hold),
    oldestEntry_min hold, ?_⟩
  cases hd : findA deviceID (eraseA t.deviceID s.deviceTokens) with
  | none =>
    have h3 : s3.tokens = setA v tok (eraseA k s.tokens) := hnoneT hd
    rw [h3, findA_setA_ne (fun hh => hvk hh.symm) tok _, findA_eraseA_self]
  | some old =>
    have horig : findA deviceID s.deviceTokens = some old := by
      by_cases hdd : deviceID = t.deviceID
      · rw [hdd, findA_eraseA_self] at hd
        exact absurd hd (by simp)
      · rw [findA_eraseA_ne hdd] at hd
        exact hd
    have hko : old ≠ k := hself old horig
    have h3 : s3.tokens = setA v tok (eraseA old (eraseA k s.tokens)) := hsomeT old hd
    rw [h3, findA_setA_ne (fun hh => hvk hh.symm) tok _,
      findA_eraseA_ne (fun hh => hko hh.symm), findA_eraseA_self]

theorem redeem_capacity_before_supersession_witness :
    ∃ tok s3, validatePairingCode svcC3 10 "123456" "devB" "Phone B2" (some "tNew")
        = (.ok tok, s3) ∧
      findA "tA" svcC3.tokens = some tokA ∧
      (∀ q ∈ svcC3.tokens, tokA.lastUsedAt ≤ q.2.lastUsedAt) ∧
      findA "tA" s3.tokens = none :=
  redeem_capacity_before_supersession svcC3 10 "123456" "devB" "Phone B2" "tNew"
    pcSample "tA" tokA (by decide) (by decide) (by decide) (by decide) (by decide)
    (by decide) (by decide)
    (fun w hw => by
      have h2 : findA "devB" svcC3.deviceTokens = some "tB" := by decide
      rw [h2] at hw
      rw [← Option.some.inj hw]
      decide)

/-! ### Claim C4: eviction when pairing a new device at capacity -/

/-- Claim C4: when the number of non-expired credentials has reached the
configured maximum, redeeming a code for a previously unbound device
succeeds and removes exactly one existing credential — one whose last-used
instant is minimal among all stored credentials, expired ones included —
after which `ValidateToken` on the evicted value fails with `InvalidToken`,
while every other previously stored credential remains present. -/
theorem redeem_at_capacity_new_device
    (s : Service) (now : Nat) (code deviceID deviceName v : String) (pc : PairingCode)
    (k : String) (t : Token)
    (hnd : KeysNodup s.tokens)
    (hpc : findA code s.pairingCodes = some pc)
    (hexp : ¬ pc.expiresAt < now)
    (hused : pc.used = false)
    (hcap : s.maxActiveDevices ≤
      (s.tokens.filter (fun p => decide (now < p.2.expiresAt))).length)
    (hold : oldestEntry s.tokens = some (k, t))
    (hnew : findA deviceID s.deviceTokens = none)
    (hfresh : findA v s.tokens = none) :
    ∃ tok s3, validatePairingCode s now code deviceID deviceName (some v) = (.ok tok, s3) ∧
      tok.deviceID = deviceID ∧ tok.value = v ∧
      findA k s.tokens = some t ∧
      (∀ q ∈ s.tokens, t.lastUsedAt ≤ q.2.lastUsedAt) ∧
      findA k s3.tokens = none ∧
      (∀ now2, (validateToken s3 now2 k).1 = .error .invalidToken) ∧
      (∀ k2 t2, k2 ≠ k → findA k2 s.tokens = some t2 → findA k2 s3.tokens = some t2) ∧
      findA v s3.tokens = some tok := by
  have hkt : findA k s.tokens = some t := findA_some_of_mem hnd (oldestEntry_mem hold)
  have hkv : k ≠ v := by
    intro hh
    rw [hh, hfresh] at hkt
    exact Option.noConfusion hkt
  have hs1 : ({ s with tokens := eraseA k s.tokens
                       deviceTokens := eraseA t.deviceID s.deviceTokens } : Service) =
      (if s.maxActiveDevices ≤
          (s.tokens.filter (fun p => decide (now < p.2.expiresAt))).length
       then removeOldestTokenLocked s else s) := by
    rw [if_pos hcap]
    exact (removeOldest_eq_of_oldest s k t hold).symm
  obtain ⟨tok, s3, hres, hv, hdev, hnm, hca, hex, hlu, hperm, hpcs, hdt, hcl, hce, hte,
    hmx, hnoneT, hsomeT⟩ :=
    validatePairingCode_success s _ now code deviceID deviceName v pc hpc hexp hused hs1
  have hdnone : findA deviceID (eraseA t.deviceID s.deviceTokens) = none := by
    by_cases hdd : deviceID = t.deviceID
    · rw [hdd, findA_eraseA_self]
    · rw [findA_eraseA_ne hdd]
      exact hnew
  have h3 : s3.tokens = setA v tok (eraseA k s.tokens) := hnoneT hdnone
  have hknone : findA k s3.tokens = none := by
    rw [h3, findA_setA_ne hkv tok _, findA_eraseA_self]
  refine ⟨tok, s3, hres, hdev, hv, hkt, oldestEntry_min hold, hknone, ?_, ?_, ?_⟩
  · intro now2
    simp only [validateToken, hknone]
  · intro k2 t2 hk2k hk2
    have hk2v : k2 ≠ v := by
      intro hh
      rw [hh, hfresh] at hk2
      exact Option.noConfusion hk2
    rw [h3, findA_setA_ne hk2v tok _, findA_eraseA_ne hk2k]
    exact hk2
  · rw [h3, findA_setA_self]

theorem redeem_at_capacity_new_device_witness :
    ∃ tok s3, validatePairingCode svcC3 10 "123456" "devC" "Phone C" (some "tNew")
        = (.ok tok, s3) ∧
      tok.deviceID = "devC" ∧ tok.value = "tNew" ∧
      findA "tA" svcC3.tokens = some tokA ∧
      (∀ q ∈ svcC3.tokens, tokA.lastUsedAt ≤ q.2.lastUsedAt) ∧
      findA "tA" s3.tokens = none ∧
      (∀ now2, (validateToken s3 now2 "tA").1 = .error .invalidToken) ∧
      (∀ k2 t2, k2 ≠ "tA" → findA k2 svcC3.tokens = some t2 → findA k2 s3.tokens = some t2) ∧
      findA "tNew" s3.tokens = some tok :=
  redeem_at_capacity_new_device svcC3 10 "123456" "devC" "Phone C" "tNew"
    pcSample "tA" tokA (by decide) (by decide) (by decide) (by decide) (by decide)
    (by decide) (by decide) (by decide)

/-! ### Claim C10: non-atomicity of Redeem on generation failure -/

/-- Shape of a redemption whose credential generation fails: the code
checks pass, the capacity check has already run, the code is already
deleted, and the supersession deletion has already happened when the error
is returned. -/
theorem validatePairingCode_genFailure
    (s s1 : Service) (now : Nat) (code deviceID deviceName : String) (pc : PairingCode)
    (hpc : findA code s.pairingCodes = some pc)
    (hexp : ¬ pc.expiresAt < now)
    (hused : pc.used = false)
    (hs1 : s1 =
      if s.maxActiveDevices ≤
          (s.tokens.filter (fun p => decide (now < p.2.expiresAt))).length
      then removeOldestTokenLocked s else s) :
    ∃ s3, validatePairingCode s now code deviceID deviceName none =
        (.error .generationFailure, s3) ∧
      s3.pairingCodes = eraseA code s.pairingCodes ∧
      s3.deviceTokens = s1.deviceTokens ∧
      (findA deviceID s1.deviceTokens = none → s3.tokens = s1.tokens) ∧
      (∀ old, findA deviceID s1.deviceTokens = some old →
        s3.tokens = eraseA old s1.tokens) := by
  have husedF : ¬ pc.used = true := by
    simp [hused]
  have hproj := ifEvict_proj s
    (s.maxActiveDevices ≤ (s.tokens.filter (fun p => decide (now < p.2.expiresAt))).length)
  rw [← hs1] at hproj
  have hpc1 : s1.pairingCodes = s.pairingCodes := hproj.1
  unfold validatePairingCode
  simp only [hpc, if_neg hexp, if_neg husedF]
  rw [← hs1]
  generalize hG : ({ s1 with pairingCodes :=
    (eraseA code (setA code { pc with used := true, deviceID := deviceID }
      s1.pairingCodes)) } : Service) = s2
  have hdt2 : s2.deviceTokens = s1.deviceTokens := by
    rw [← hG]
  have htk2 : s2.tokens = s1.tokens := by
    rw [← hG]
  have hpcs2 : s2.pairingCodes = eraseA code s.pairingCodes := by
    rw [← hG, ← hpc1]
    exact eraseA_setA_self code _ s1.pairingCodes
  unfold createTokenLocked
  cases hd : findA deviceID s2.deviceTokens with
  | none =>
    refine ⟨s2, rfl, hpcs2, hdt2, ?_, ?_⟩
    · intro _
      exact htk2
    · intro old hold
      rw [hdt2] at hd
      rw [hd] at hold
      exact Option.noConfusion hold
  | some old0 =>
    refine ⟨_, rfl, hpcs2, hdt2, ?_, ?_⟩
    · intro h0
      rw [hdt2] at hd
      rw [hd] at h0
      exact Option.noConfusion h0
    · intro old hold
      rw [hdt2] at hd
      rw [hd] at hold
      injection hold with hko
      rw [← hko, htk2]

/-- Claim C10: Redeem is not atomic on credential-generation failure — with
the code checks passed, a failing generator yields an error, yet the code
is already removed, the capacity eviction has already removed the oldest
(here another device's) credential, and the redeeming device's old
credential is deleted from the token table while the device index still
references the deleted value. -/
theorem redeem_generation_failure_partial
    (s : Service) (now : Nat) (code deviceID deviceName : String) (pc : PairingCode)
    (k oldVal : String) (t : Token)
    (hpc : findA code s.pairingCodes = some pc)
    (hexp : ¬ pc.expiresAt < now)
    (hused : pc.used = false)
    (hcap : s.maxActiveDevices ≤
      (s.tokens.filter (fun p => decide (now < p.2.expiresAt))).length)
    (hold : oldestEntry s.tokens = some (k, t))
    (htdev : t.deviceID ≠ deviceID)
    (hbound : findA deviceID s.deviceTokens = some oldVal)
    (holdk : oldVal ≠ k) :
    (validatePairingCode s now code deviceID deviceName none).1
        = .error .generationFailure ∧
    findA code (validatePairingCode s now code deviceID deviceName none).2.pairingCodes
        = none ∧
    findA k (validatePairingCode s now code deviceID deviceName none).2.tokens = none ∧
    findA oldVal (validatePairingCode s now code deviceID deviceName none).2.tokens
        = none ∧
    findA deviceID (validatePairingCode s now code deviceID deviceName none).2.deviceTokens
        = some oldVal := by
  have hs1 : ({ s with tokens := eraseA k s.tokens
                       deviceTokens := eraseA t.deviceID s.deviceTokens } : Service) =
      (if s.maxActiveDevices ≤
          (s.tokens.filter (fun p => decide (now < p.2.expiresAt))).length
       then removeOldestTokenLocked s else s) := by
    rw [if_pos hcap]
    exact (removeOldest_eq_of_oldest s k t hold).symm
  obtain ⟨s3, hres, hpcs, hdt, hnoneT, hsomeT⟩ :=
    validatePairingCode_genFailure s _ now code deviceID deviceName pc hpc hexp hused hs1
  have hdl : findA deviceID (eraseA t.deviceID s.deviceTokens) = some oldVal := by
    rw [findA_eraseA_ne (fun hh => htdev hh.symm)]
    exact hbound
  have h3 : s3.tokens = eraseA oldVal (eraseA k s.tokens) := hsomeT oldVal hdl
  rw [hres]
  refine ⟨rfl, ?_, ?_, ?_, ?_⟩
  · rw [hpcs, findA_eraseA_self]
  · rw [h3, findA_eraseA_ne (fun hh => holdk hh.symm), findA_eraseA_self]
  · rw [h3, findA_eraseA_self]
  · rw [hdt]
    exact hdl

theorem redeem_generation_failure_partial_witness :
    (validatePairingCode svcC3 10 "123456" "devB" "Phone B2" none).1
        = .error .generationFailure ∧
    findA "123456" (validatePairingCode svcC3 10 "123456" "devB" "Phone B2"
        none).2.pairingCodes = none ∧
    findA "tA" (validatePairingCode svcC3 10 "123456" "devB" "Phone B2"
        none).2.tokens = none ∧
    findA "tB" (validatePairingCode svcC3 10 "123456" "devB" "Phone B2"
        none).2.tokens = none ∧
    findA "devB" (validatePairingCode svcC3 10 "123456" "devB" "Phone B2"
        none).2.deviceTokens = some "tB" :=
  redeem_generation_failure_partial svcC3 10 "123456" "devB" "Phone B2" pcSample
    "tA" "tB" tokA (by decide) (by decide) (by decide) (by decide) (by decide)
    (by decide) (by decide) (by decide)

/-! ### Claim C8: generated pairing codes -/

theorem getD_mem_of_lt {α : Type} (l : List α) (i : Nat) (d : α) (h : i < l.length) :
    l.getD i d ∈ l := by
  rw [List.getD_eq_getElem?_getD, List.getElem?_eq_getElem h, Option.getD_some]
  exact List.getElem_mem h

theorem generateNumericCode_length (n : Nat) (bytes : List Nat) :
    (generateNumericCode n bytes).length = n := by
  unfold generateNumericCode
  rw [show ∀ l : List Char, (String.mk l).length = l.length from fun l => rfl]
  rw [List.length_map, List.length_range]

theorem generateNumericCode_digits (n : Nat) (bytes : List Nat) :
    ∀ c ∈ (generateNumericCode n bytes).toList, c ∈ numericCharset := by
  intro c hc
  unfold generateNumericCode at hc
  rw [show ∀ l : List Char, (String.mk l).toList = l from fun l => rfl] at hc
  rcases List.mem_map.mp hc with ⟨i, _, hEq⟩
  rw [← hEq]
  have hlen : numericCharset.length = 10 := by decide
  have hlt : bytes.getD i 0 % 256 % 10 < numericCharset.length := by
    rw [hlen]
    exact Nat.mod_lt _ (by norm_num)
  exact getD_mem_of_lt numericCharset _ ' ' hlt

theorem findFreshCode_spec (s : Service) :
    ∀ (rnd : List (List Nat)) (code : String), findFreshCode s rnd = some code →
      findA code s.pairingCodes = none ∧
      ∃ bytes ∈ rnd, code = generateNumericCode s.codeLength bytes := by
  intro rnd
  induction rnd with
  | nil =>
    intro code h
    exact absurd h (by simp [findFreshCode])
  | cons bytes rest ih =>
    intro code h
    simp only [findFreshCode] at h
    by_cases hcol : (findA (generateNumericCode s.codeLength bytes) s.pairingCodes).isSome
      = true
    · rw [if_pos hcol] at h
      obtain ⟨h1, bytes2, hb, he⟩ := ih code h
      exact ⟨h1, bytes2, List.mem_cons_of_mem _ hb, he⟩
    · rw [if_neg hcol] at h
      injection h with h
      refine ⟨?_, bytes, List.mem_cons_self _ _, h.symm⟩
      rw [← h]
      cases hx : findA (generateNumericCode s.codeLength bytes) s.pairingCodes with
      | none => rfl
      | some q =>
        rw [hx] at hcol
        exact absurd rfl hcol

/-- Claim C8: every code returned by `GeneratePairingCode` has the
configured length, consists only of decimal digits, and is absent from the
pairing-code table at the moment of insertion, after the opportunistic
purge of expired and used codes; the code is then stored with creation time
`now` and expiry `now + codeExpiry`. -/
theorem generatePairingCode_spec (s : Service) (now : Nat)
    (randomness : List (List Nat)) (pc : PairingCode)
    (h : (generatePairingCode s now randomness).1 = some pc) :
    pc.code.length = s.codeLength ∧
    (∀ c ∈ pc.code.toList, c ∈ numericCharset) ∧
    findA pc.code (cleanupExpiredCodesLocked s now).pairingCodes = none ∧
    (generatePairingCode s now randomness).2.pairingCodes
      = setA pc.code pc (cleanupExpiredCodesLocked s now).pairingCodes ∧
    pc.createdAt = now ∧ pc.expiresAt = now + s.codeExpiry ∧ pc.used = false := by
  simp only [generatePairingCode] at h ⊢
  cases hf : findFreshCode (cleanupExpiredCodesLocked s now) randomness with
  | none =>
    rw [hf] at h
    exact absurd h (by simp)
  | some code =>
    rw [hf] at h
    injection h with h
    obtain ⟨hnone, bytes, hb, hcode⟩ :=
      findFreshCode_spec (cleanupExpiredCodesLocked s now) randomness code hf
    subst h
    refine ⟨?_, ?_, hnone, rfl, rfl, rfl, rfl⟩
    · rw [hcode, generateNumericCode_length]
      rfl
    · rw [hcode]
      exact generateNumericCode_digits _ bytes

theorem generatePairingCode_spec_witness :
    pcW.code.length = svcC1.codeLength ∧
    (∀ c ∈ pcW.code.toList, c ∈ numericCharset) ∧
    findA pcW.code (cleanupExpiredCodesLocked svcC1 0).pairingCodes = none ∧
    (generatePairingCode svcC1 0 [[0, 1, 2, 3, 4, 5]]).2.pairingCodes
      = setA pcW.code pcW (cleanupExpiredCodesLocked svcC1 0).pairingCodes ∧
    pcW.createdAt = 0 ∧ pcW.expiresAt = 0 + svcC1.codeExpiry ∧ pcW.used = false :=
  generatePairingCode_spec svcC1 0 [[0, 1, 2, 3, 4, 5]] pcW (by decide)

/-! ### Claim C6: persistence round trip -/

theorem findA_foldl_setA_nil_inv {V : Type} {l : List (String × V)}
    (hnd : KeysNodup l) {k : String} {v : V}
    (h : findA k (l.foldl (fun a p => setA p.1 p.2 a) []) = some v) :
    findA k l = some v := by
  cases hfl : findA k l with
  | none =>
    rw [findA_foldl_setA_none hfl] at h
    exact absurd h (by simp [findA])
  | some v2 =>
    rw [findA_foldl_setA_some hnd hfl] at h
    injection h with h
    rw [← h]

theorem loadState_proj (s : Service) (now : Nat) (st : PersistedState)
    (h1 : s.tokens = []) (h2 : s.deviceTokens = []) :
    (loadState s now st).tokens
      = (st.tokens.filter (fun p => decide (now < p.2.expiresAt))).foldl
          (fun acc p => setA p.1 p.2 acc) [] ∧
    (loadState s now st).deviceTokens
      = (st.deviceTokens.filter (fun r =>
          (findA r.2 ((st.tokens.filter (fun p => decide (now < p.2.expiresAt))).foldl
            (fun acc p => setA p.1 p.2 acc) [])).isSome)).foldl
          (fun acc r => setA r.1 r.2 acc) [] := by
  constructor
  · show ((st.tokens.filter (fun p => decide (now < p.2.expiresAt))).foldl
        (fun acc p => setA p.1 p.2 acc) s.tokens) = _
    rw [h1]
  · show ((st.deviceTokens.filter (fun r =>
        (findA r.2 ((st.tokens.filter (fun p => decide (now < p.2.expiresAt))).foldl
          (fun acc p => setA p.1 p.2 acc) s.tokens)).isSome)).foldl
        (fun acc r => setA r.1 r.2 acc) s.deviceTokens) = _
    rw [h1, h2]

/-- Claim C6: after `SaveState` of a store, a fresh empty store that runs
`LoadState` on the saved document at the save instant contains exactly the
credentials whose expiry was in the future at save time — each restored
with its fields intact, none of the expired ones restored — and every
restored device-index row targets a restored credential. -/
theorem saveState_loadState_roundtrip (s : Service) (cfg : ServiceConfig) (now : Nat)
    (hndT : KeysNodup s.tokens) (hndD : KeysNodup s.deviceTokens) :
    (∀ k t, findA k s.tokens = some t → now < t.expiresAt →
      findA k (loadState (newService cfg) now (saveState s now)).tokens = some t) ∧
    (∀ k t, findA k (loadState (newService cfg) now (saveState s now)).tokens = some t →
      findA k s.tokens = some t ∧ now < t.expiresAt) ∧
    (∀ d v, findA d (loadState (newService cfg) now (saveState s now)).deviceTokens
        = some v →
      (findA v (loadState (newService cfg) now (saveState s now)).tokens).isSome) := by
  obtain ⟨hT, hD⟩ := loadState_proj (newService cfg) now (saveState s now) rfl rfl
  have hdocT : (saveState s now).tokens
      = s.tokens.filter (fun p => decide (now < p.2.expiresAt)) := rfl
  have hLL : ((saveState s now).tokens.filter (fun p => decide (now < p.2.expiresAt)))
      = s.tokens.filter (fun p => decide (now < p.2.expiresAt)) := by
    rw [hdocT, List.filter_eq_self]
    intro a ha
    exact (List.mem_filter.mp ha).2
  have hndL : KeysNodup (s.tokens.filter (fun p => decide (now < p.2.expiresAt))) :=
    keysNodup_filter _ hndT
  refine ⟨?_, ?_, ?_⟩
  · intro k t hk hexp
    rw [hT, hLL]
    have hfl : findA k (s.tokens.filter (fun p => decide (now < p.2.expiresAt)))
        = some t := by
      rw [findA_filter_of_some _ hndT hk]
      rw [if_pos]
      show decide (now < t.expiresAt) = true
      exact decide_eq_true hexp
    exact findA_foldl_setA_some hndL hfl []
  · intro k t h
    rw [hT, hLL] at h
    have hfl := findA_foldl_setA_nil_inv hndL h
    have hmem := mem_of_findA_some hfl
    have hin := List.mem_filter.mp hmem
    refine ⟨findA_some_of_mem hndT hin.1, ?_⟩
    have := hin.2
    simpa using this
  · intro d v h
    rw [hD] at h
    have hndR : KeysNodup ((saveState s now).deviceTokens.filter (fun r =>
        (findA r.2 (((saveState s now).tokens.filter
          (fun p => decide (now < p.2.expiresAt))).foldl
          (fun acc p => setA p.1 p.2 acc) [])).isSome)) := by
      have hndRows : KeysNodup (saveState s now).deviceTokens := by
        show KeysNodup (s.deviceTokens.filter _)
        exact keysNodup_filter _ hndD
      exact keysNodup_filter _ hndRows
    have hfl := findA_foldl_setA_nil_inv hndR h
    have hmem := mem_of_findA_some hfl
    have hin := List.mem_filter.mp hmem
    have hcond := hin.2
    rw [hT, hLL]
    rw [hLL] at hcond
    exact hcond

theorem saveState_loadState_roundtrip_witness :
    findA "tA" (loadState (newService cfgW) 50 (saveState svcC6 50)).tokens = some tokA ∧
    (findA "tE" (loadState (newService cfgW) 50 (saveState svcC6 50)).tokens = some tokE →
      (50 : Nat) < tokE.expiresAt) ∧
    (findA "devA" (loadState (newService cfgW) 50 (saveState svcC6 50)).deviceTokens
        = some "tA" →
      (findA "tA" (loadState (newService cfgW) 50 (saveState svcC6 50)).tokens).isSome) :=
  ⟨(saveState_loadState_roundtrip svcC6 cfgW 50 (by decide) (by decide)).1 "tA" tokA
      (by decide) (by decide),
   fun h => ((saveState_loadState_roundtrip svcC6 cfgW 50 (by decide) (by decide)).2.1
      "tE" tokE h).2,
   fun h => (saveState_loadState_roundtrip svcC6 cfgW 50 (by decide) (by decide)).2.2
      "devA" "tA" h⟩

/-! ### Claim C7: index/table mutual consistency -/

theorem strongInv_to_consistent {s : Service} (h : StrongInv s) : Consistent s := by
  obtain ⟨_, _, h1, h2⟩ := h
  refine ⟨?_, h2⟩
  intro d v hd
  obtain ⟨t, ht, _⟩ := h1 d v hd
  rw [ht]
  rfl

theorem findA_eraseA_none {V : Type} {v : String} {l : List (String × V)}
    (h : findA v l = none) (k : String) : findA v (eraseA k l) = none := by
  by_cases hv : v = k
  · rw [hv, findA_eraseA_self]
  · rw [findA_eraseA_ne hv]
    exact h

theorem findA_filter_inv {V : Type} (q : String × V → Bool) {l : List (String × V)}
    (hnd : KeysNodup l) {k : String} {v : V}
    (h : findA k (l.filter q) = some v) : findA k l = some v ∧ q (k, v) = true := by
  cases hl : findA k l with
  | none =>
    rw [findA_filter_none q hl] at h
    exact absurd h (by simp)
  | some v2 =>
    rw [findA_filter_of_some q hnd hl] at h
    by_cases hq : q (k, v2) = true
    · rw [if_pos hq] at h
      injection h with h
      exact ⟨by rw [h], by rw [← h]; exact hq⟩
    · rw [if_neg hq] at h
      exact absurd h (by simp)

theorem keysNodup_foldl_setA {V : Type} (l : List (String × V)) :
    ∀ acc : List (String × V), KeysNodup acc →
      KeysNodup (l.foldl (fun a p => setA p.1 p.2 a) acc) := by
  induction l with
  | nil =>
    intro acc h
    exact h
  | cons p rest ih =>
    intro acc h
    exact ih (setA p.1 p.2 acc) (keysNodup_setA p.1 p.2 h)

theorem strongInv_congr {s s2 : Service} (h1 : s2.tokens = s.tokens)
    (h2 : s2.deviceTokens = s.deviceTokens) (h : StrongInv s) : StrongInv s2 := by
  unfold StrongInv at h ⊢
  rw [h1, h2]
  exact h

theorem strongInv_removePair {s : Service} (hInv : StrongInv s) {v : String} {t : Token}
    (hv : findA v s.tokens = some t) :
    StrongInv { s with tokens := eraseA v s.tokens
                       deviceTokens := eraseA t.deviceID s.deviceTokens } := by
  obtain ⟨hndT, hndD, hdir1, hdir2⟩ := hInv
  refine ⟨keysNodup_eraseA v hndT, keysNodup_eraseA t.deviceID hndD, ?_, ?_⟩
  · intro d w hd
    by_cases hdd : d = t.deviceID
    · rw [hdd, findA_eraseA_self] at hd
      exact absurd hd (by simp)
    · rw [findA_eraseA_ne hdd] at hd
      obtain ⟨t2, ht2, hdev2⟩ := hdir1 d w hd
      have hwv : w ≠ v := by
        intro hh
        rw [hh, hv] at ht2
        injection ht2 with ht2
        exact hdd (by rw [← hdev2, ← ht2])
      refine ⟨t2, ?_, hdev2⟩
      rw [findA_eraseA_ne hwv]
      exact ht2
  · intro w t2 hw
    by_cases hwv : w = v
    · rw [hwv, findA_eraseA_self] at hw
      exact absurd hw (by simp)
    · rw [findA_eraseA_ne hwv] at hw
      have hrow := hdir2 w t2 hw
      have hdd : t2.deviceID ≠ t.deviceID := by
        intro hh
        have hrow2 := hdir2 v t hv
        rw [hh, hrow2] at hrow
        injection hrow with hrow
        exact hwv hrow.symm
      rw [findA_eraseA_ne hdd]
      exact hrow

theorem strongInv_updateToken {s : Service} (hInv : StrongInv s) {v : String} {t t1 : Token}
    (hv : findA v s.tokens = some t) (hdev : t1.deviceID = t.deviceID) :
    StrongInv { s with tokens := setA v t1 s.tokens } := by
  obtain ⟨hndT, hndD, hdir1, hdir2⟩ := hInv
  refine ⟨keysNodup_setA v t1 hndT, hndD, ?_, ?_⟩
  · intro d w hd
    obtain ⟨t2, ht2, hdev2⟩ := hdir1 d w hd
    by_cases hwv : w = v
    · refine ⟨t1, ?_, ?_⟩
      · rw [hwv, findA_setA_self]
      · rw [hwv, hv] at ht2
        injection ht2 with ht2
        rw [hdev, ht2]
        exact hdev2
    · refine ⟨t2, ?_, hdev2⟩
      rw [findA_setA_ne hwv]
      exact ht2
  · intro w t2 hw
    by_cases hwv : w = v
    · rw [hwv, findA_setA_self] at hw
      injection hw with hw
      rw [← hw, hdev, hwv]
      exact hdir2 v t hv
    · rw [findA_setA_ne hwv] at hw
      exact hdir2 w t2 hw

theorem strongInv_issue (s1 s3 : Service) (v dID : String) (tok : Token)
    (hInv1 : StrongInv s1)
    (hfresh1 : findA v s1.tokens = none)
    (htokdev : tok.deviceID = dID)
    (hdt : s3.deviceTokens = setA dID v s1.deviceTokens)
    (hnoneT : findA dID s1.deviceTokens = none → s3.tokens = setA v tok s1.tokens)
    (hsomeT : ∀ old, findA dID s1.deviceTokens = some old →
      s3.tokens = setA v tok (eraseA old s1.tokens)) :
    StrongInv s3 := by
  obtain ⟨hndT, hndD, hdir1, hdir2⟩ := hInv1
  cases hd : findA dID s1.deviceTokens with
  | none =>
    have h3 : s3.tokens = setA v tok s1.tokens := hnoneT hd
    refine ⟨?_, ?_, ?_, ?_⟩
    · rw [h3]
      exact keysNodup_setA _ _ hndT
    · rw [hdt]
      exact keysNodup_setA _ _ hndD
    · intro d w hw
      rw [hdt] at hw
      by_cases hdd : d = dID
      · rw [hdd, findA_setA_self] at hw
        injection hw with hw
        refine ⟨tok, ?_, by rw [htokdev, hdd]⟩
        rw [h3, ← hw, findA_setA_self]
      · rw [findA_setA_ne hdd] at hw
        obtain ⟨t2, ht2, hdev2⟩ := hdir1 d w hw
        have hwv : w ≠ v := by
          intro hh
          rw [hh, hfresh1] at ht2
          exact Option.noConfusion ht2
        refine ⟨t2, ?_, hdev2⟩
        rw [h3, findA_setA_ne hwv]
        exact ht2
    · intro w t2 hw
      rw [h3] at hw
      by_cases hwv : w = v
      · rw [hwv, findA_setA_self] at hw
        injection hw with hw
        rw [hdt, ← hw, htokdev, findA_setA_self, hwv]
      · rw [findA_setA_ne hwv] at hw
        have hrow := hdir2 w t2 hw
        rw [hdt]
        have hdd : t2.deviceID ≠ dID := by
          intro hh
          rw [hh, hd] at hrow
          exact Option.noConfusion hrow
        rw [findA_setA_ne hdd]
        exact hrow
  | some old =>
    have h3 : s3.tokens = setA v tok (eraseA old s1.tokens) := hsomeT old hd
    obtain ⟨tOld, htOld, hdevOld⟩ := hdir1 dID old hd
    refine ⟨?_, ?_, ?_, ?_⟩
    · rw [h3]
      exact keysNodup_setA _ _ (keysNodup_eraseA _ hndT)
    · rw [hdt]
      exact keysNodup_setA _ _ hndD
    · intro d w hw
      rw [hdt] at hw
      by_cases hdd : d = dID
      · rw [hdd, findA_setA_self] at hw
        injection hw with hw
        refine ⟨tok, ?_, by rw [htokdev, hdd]⟩
        rw [h3, ← hw, findA_setA_self]
      · rw [findA_setA_ne hdd] at hw
        obtain ⟨t2, ht2, hdev2⟩ := hdir1 d w hw
        have hwv : w ≠ v := by
          intro hh
          rw [hh, hfresh1] at ht2
          exact Option.noConfusion ht2
        have hwold : w ≠ old := by
          intro hh
          rw [hh, htOld] at ht2
          injection ht2 with ht2
          exact hdd (by rw [← hdev2, ← ht2]; exact hdevOld)
        refine ⟨t2, ?_, hdev2⟩
        rw [h3, findA_setA_ne hwv, findA_eraseA_ne hwold]
        exact ht2
    · intro w t2 hw
      rw [h3] at hw
      by_cases hwv : w = v
      · rw [hwv, findA_setA_self] at hw
        injection hw with hw
        rw [hdt, ← hw, htokdev, findA_setA_self, hwv]
      · rw [findA_setA_ne hwv] at hw
        have hwold : w ≠ old := by
          intro hh
          rw [hh, findA_eraseA_self] at hw
          exact Option.noConfusion hw
        rw [findA_eraseA_ne hwold] at hw
        have hrow := hdir2 w t2 hw
        have hdd : t2.deviceID ≠ dID := by
          intro hh
          rw [hh, hd] at hrow
          injection hrow with hrow
          exact hwold hrow.symm
        rw [hdt, findA_setA_ne hdd]
        exact hrow

theorem strongInv_evict (s : Service) (hInv : StrongInv s) :
    StrongInv (removeOldestTokenLocked s) := by
  cases h : oldestEntry s.tokens with
  | none =>
    rw [removeOldest_eq_of_none s h]
    exact hInv
  | some p =>
    obtain ⟨k, t⟩ := p
    rw [removeOldest_eq_of_oldest s k t h]
    exact strongInv_removePair hInv (findA_some_of_mem hInv.1 (oldestEntry_mem h))

theorem strongInv_validate (s : Service) (now : Nat) (value : String)
    (hInv : StrongInv s) : StrongInv (validateToken s now value).2 := by
  unfold validateToken
  cases hv : findA value s.tokens with
  | none => exact hInv
  | some t =>
    by_cases hexp : t.expiresAt < now
    · simp only [if_pos hexp]
      exact strongInv_removePair hInv hv
    · simp only [if_neg hexp]
      exact strongInv_updateToken hInv hv rfl

theorem strongInv_refresh (s : Service) (now : Nat) (value : String)
    (hInv : StrongInv s) : StrongInv (refreshToken s now value).2 := by
  unfold refreshToken
  cases hv : findA value s.tokens with
  | none => exact hInv
  | some t =>
    by_cases hexp : t.expiresAt < now
    · simp only [if_pos hexp]
      exact strongInv_removePair hInv hv
    · simp only [if_neg hexp]
      exact strongInv_updateToken hInv hv rfl

theorem strongInv_revoke (s : Service) (value : String)
    (hInv : StrongInv s) : StrongInv (revokeToken s value).2 := by
  unfold revokeToken
  cases hv : findA value s.tokens with
  | none => exact hInv
  | some t => exact strongInv_removePair hInv hv

theorem strongInv_revokeDevice (s : Service) (dID : String)
    (hInv : StrongInv s) : StrongInv (revokeDevice s dID).2 := by
  unfold revokeDevice
  cases hd : findA dID s.deviceTokens with
  | none => exact hInv
  | some tv =>
    obtain ⟨t, htv, hdev⟩ := hInv.2.2.1 dID tv hd
    have h := strongInv_removePair hInv htv
    rw [← hdev]
    exact h

theorem generatePairingCode_preserves (s : Service) (now : Nat) (rnd : List (List Nat)) :
    (generatePairingCode s now rnd).2.tokens = s.tokens ∧
    (generatePairingCode s now rnd).2.deviceTokens = s.deviceTokens := by
  simp only [generatePairingCode]
  cases findFreshCode (cleanupExpiredCodesLocked s now) rnd with
  | none => exact ⟨rfl, rfl⟩
  | some c => exact ⟨rfl, rfl⟩

theorem strongInv_issueCode (s : Service) (now : Nat) (rnd : List (List Nat))
    (hInv : StrongInv s) : StrongInv (generatePairingCode s now rnd).2 :=
  strongInv_congr (generatePairingCode_preserves s now rnd).1
    (generatePairingCode_preserves s now rnd).2 hInv

theorem validatePairingCode_invalidCode (s : Service) (now : Nat) (code d n : String)
    (g : Option String) (h : findA code s.pairingCodes = none) :
    validatePairingCode s now code d n g = (.error .invalidCode, s) := by
  simp only [validatePairingCode, h]

theorem validatePairingCode_codeUsed (s : Service) (now : Nat) (code d n : String)
    (g : Option String) (pc : PairingCode)
    (hpc : findA code s.pairingCodes = some pc)
    (hexp : ¬ pc.expiresAt < now) (hused : pc.used = true) :
    validatePairingCode s now code d n g = (.error .codeAlreadyUsed, s) := by
  simp only [validatePairingCode, hpc, if_neg hexp, if_pos hused]

theorem validatePairingCode_codeExpired (s : Service) (now : Nat) (code d n : String)
    (g : Option String) (pc : PairingCode)
    (hpc : findA code s.pairingCodes = some pc) (hexp : pc.expiresAt < now) :
    validatePairingCode s now code d n g =
      (.error .codeExpired, { s with pairingCodes := eraseA code s.pairingCodes }) := by
  simp only [validatePairingCode, hpc, if_pos hexp]

theorem findA_removeOldest_none (s : Service) {v : String}
    (h : findA v s.tokens = none) :
    findA v (removeOldestTokenLocked s).tokens = none := by
  cases ho : oldestEntry s.tokens with
  | none =>
    rw [removeOldest_eq_of_none s ho]
    exact h
  | some p =>
    obtain ⟨k, t⟩ := p
    rw [removeOldest_eq_of_oldest s k t ho]
    exact findA_eraseA_none h k

theorem strongInv_redeem (s : Service) (now : Nat) (code dID dName v : String)
    (hInv : StrongInv s) (hfresh : findA v s.tokens = none) :
    StrongInv (validatePairingCode s now code dID dName (some v)).2 := by
  cases hpc : findA code s.pairingCodes with
  | none =>
    rw [validatePairingCode_invalidCode s now code dID dName (some v) hpc]
    exact hInv
  | some pc =>
    by_cases hexp : pc.expiresAt < now
    · rw [validatePairingCode_codeExpired s now code dID dName (some v) pc hpc hexp]
      exact strongInv_congr rfl rfl hInv
    · by_cases hused : pc.used = true
      · rw [validatePairingCode_codeUsed s now code dID dName (some v) pc hpc hexp hused]
        exact hInv
      · have husedF : pc.used = false := by
          revert hused
          cases pc.used <;> simp
        obtain ⟨tok, s3, hres, hv, hdev, hnm, hca, hex, hlu, hperm, hpcs, hdt, hcl, hce,
          hte, hmx, hnoneT, hsomeT⟩ :=
          validatePairingCode_success s _ now code dID dName v pc hpc hexp husedF rfl
        rw [hres]
        have hInv1 : StrongInv (if s.maxActiveDevices ≤
            (s.tokens.filter (fun p => decide (now < p.2.expiresAt))).length
            then removeOldestTokenLocked s else s) := by
          by_cases hcap : s.maxActiveDevices ≤
              (s.tokens.filter (fun p => decide (now < p.2.expiresAt))).length
          · rw [if_pos hcap]
            exact strongInv_evict s hInv
          · rw [if_neg hcap]
            exact hInv
        have hfresh1 : findA v (if s.maxActiveDevices ≤
            (s.tokens.filter (fun p => decide (now < p.2.expiresAt))).length
            then removeOldestTokenLocked s else s).tokens = none := by
          by_cases hcap : s.maxActiveDevices ≤
              (s.tokens.filter (fun p => decide (now < p.2.expiresAt))).length
          · rw [if_pos hcap]
            exact findA_removeOldest_none s hfresh
          · rw [if_neg hcap]
            exact hfresh
        exact strongInv_issue _ s3 v dID tok hInv1 hfresh1 hdev hdt hnoneT hsomeT

theorem strongInv_sweep (s : Service) (now : Nat) (hInv : StrongInv s) :
    StrongInv (sweepOnce s now) := by
  obtain ⟨hndT, hndD, hdir1, hdir2⟩ := hInv
  refine ⟨keysNodup_filter _ hndT, keysNodup_filter _ hndD, ?_, ?_⟩
  · intro d v hdv
    have hdv2 : findA d (s.deviceTokens.filter (fun r =>
        !((s.tokens.filter (fun p => decide (p.2.expiresAt < now))).any
          (fun p => p.2.deviceID == r.1)))) = some v := hdv
    obtain ⟨hrow, hcond⟩ := findA_filter_inv _ hndD hdv2
    obtain ⟨t, htv, hdev⟩ := hdir1 d v hrow
    have hcond2 : (!((s.tokens.filter (fun p => decide (p.2.expiresAt < now))).any
        (fun p => p.2.deviceID == d))) = true := hcond
    have hnotexp : decide (t.expiresAt < now) = false := by
      by_cases hexp : decide (t.expiresAt < now) = true
      · exfalso
        have hmem : (v, t) ∈ s.tokens.filter (fun p => decide (p.2.expiresAt < now)) :=
          List.mem_filter.mpr ⟨mem_of_findA_some htv, hexp⟩
        have hany : ((s.tokens.filter (fun p => decide (p.2.expiresAt < now))).any
            (fun p => p.2.deviceID == d)) = true :=
          List.any_eq_true.mpr ⟨(v, t), hmem, by simp [hdev]⟩
        rw [hany] at hcond2
        simp at hcond2
      · revert hexp
        cases decide (t.expiresAt < now) <;> simp
    refine ⟨t, ?_, hdev⟩
    show findA v (s.tokens.filter (fun p => !(decide (p.2.expiresAt < now)))) = some t
    rw [findA_filter_of_some _ hndT htv]
    have hcondT : (fun p : String × Token => !(decide (p.2.expiresAt < now))) (v, t)
        = true := by
      show (!(decide (t.expiresAt < now))) = true
      rw [hnotexp]
      rfl
    rw [if_pos hcondT]
  · intro v t hv
    have hv2 : findA v (s.tokens.filter (fun p => !(decide (p.2.expiresAt < now))))
        = some t := hv
    obtain ⟨htok, hcond⟩ := findA_filter_inv _ hndT hv2
    have hcondB : (!(decide (t.expiresAt < now))) = true := hcond
    have hrow := hdir2 v t htok
    show findA t.deviceID (s.deviceTokens.filter (fun r =>
        !((s.tokens.filter (fun p => decide (p.2.expiresAt < now))).any
          (fun p => p.2.deviceID == r.1)))) = some v
    rw [findA_filter_of_some _ hndD hrow]
    have hanyF : ((s.tokens.filter (fun p => decide (p.2.expiresAt < now))).any
        (fun p => p.2.deviceID == t.deviceID)) = false := by
      by_cases hany : ((s.tokens.filter (fun p => decide (p.2.expiresAt < now))).any
          (fun p => p.2.deviceID == t.deviceID)) = true
      · exfalso
        obtain ⟨p, hpmem, hpd⟩ := List.any_eq_true.mp hany
        obtain ⟨u, tu⟩ := p
        obtain ⟨hpin, hpexp⟩ := List.mem_filter.mp hpmem
        have hdevEq : tu.deviceID = t.deviceID := eq_of_beq hpd
        have hufind : findA u s.tokens = some tu := findA_some_of_mem hndT hpin
        have hrow2 := hdir2 u tu hufind
        rw [hdevEq, hrow] at hrow2
        injection hrow2 with hrow2
        rw [hrow2] at htok
        rw [hufind] at htok
        injection htok with htok
        rw [htok] at hpexp
        rw [hpexp] at hcondB
        simp at hcondB
      · revert hany
        cases ((s.tokens.filter (fun p => decide (p.2.expiresAt < now))).any
          (fun p => p.2.deviceID == t.deviceID)) <;> simp
    have hcondR : (fun r : String × String =>
        !((s.tokens.filter (fun p => decide (p.2.expiresAt < now))).any
          (fun p => p.2.deviceID == r.1))) (t.deviceID, v) = true := by
      show (!((s.tokens.filter (fun p => decide (p.2.expiresAt < now))).any
        (fun p => p.2.deviceID == t.deviceID))) = true
      rw [hanyF]
      rfl
    rw [if_pos hcondR]

theorem strongInv_load (s : Service) (now : Nat) (st : PersistedState)
    (h1 : s.tokens = []) (h2 : s.deviceTokens = []) (hdoc : DocWF st) :
    StrongInv (loadState s now st) := by
  obtain ⟨hT, hD⟩ := loadState_proj s now st h1 h2
  obtain ⟨hndT, hndD, hdir1, hdir2⟩ := hdoc
  have hndL : KeysNodup (st.tokens.filter (fun p => decide (now < p.2.expiresAt))) :=
    keysNodup_filter _ hndT
  have hndR : KeysNodup (st.deviceTokens.filter (fun r =>
      (findA r.2 ((st.tokens.filter (fun p => decide (now < p.2.expiresAt))).foldl
        (fun acc p => setA p.1 p.2 acc) [])).isSome)) :=
    keysNodup_filter _ hndD
  refine ⟨?_, ?_, ?_, ?_⟩
  · rw [hT]
    exact keysNodup_foldl_setA _ [] keysNodup_nil
  · rw [hD]
    exact keysNodup_foldl_setA _ [] keysNodup_nil
  · intro d v hdv
    rw [hD] at hdv
    have hfl := findA_foldl_setA_nil_inv hndR hdv
    obtain ⟨hrow, hcond⟩ := findA_filter_inv _ hndD hfl
    have hsome : (findA v ((st.tokens.filter (fun p => decide (now < p.2.expiresAt))).foldl
        (fun acc p => setA p.1 p.2 acc) [])).isSome = true := hcond
    obtain ⟨t2, ht2⟩ := Option.isSome_iff_exists.mp hsome
    have hL := findA_foldl_setA_nil_inv hndL ht2
    obtain ⟨hst, _⟩ := findA_filter_inv _ hndT hL
    obtain ⟨t3, ht3, hdev3⟩ := hdir1 d v hrow
    have ht23 : t2 = t3 := by
      rw [hst] at ht3
      injection ht3
    refine ⟨t2, ?_, ?_⟩
    · rw [hT]
      exact ht2
    · rw [ht23]
      exact hdev3
  · intro v t hv
    rw [hT] at hv
    have hL := findA_foldl_setA_nil_inv hndL hv
    obtain ⟨hst, hcond⟩ := findA_filter_inv _ hndT hL
    have hrow := hdir2 v t hst
    rw [hD]
    have hcondR : (fun r : String × String =>
        (findA r.2 ((st.tokens.filter (fun p => decide (now < p.2.expiresAt))).foldl
          (fun acc p => setA p.1 p.2 acc) [])).isSome) (t.deviceID, v) = true := by
      show (findA v ((st.tokens.filter (fun p => decide (now < p.2.expiresAt))).foldl
        (fun acc p => setA p.1 p.2 acc) [])).isSome = true
      rw [hv]
      rfl
    have hflR : findA t.deviceID (st.deviceTokens.filter (fun r =>
        (findA r.2 ((st.tokens.filter (fun p => decide (now < p.2.expiresAt))).foldl
          (fun acc p => setA p.1 p.2 acc) [])).isSome)) = some v := by
      rw [findA_filter_of_some _ hndD hrow, if_pos hcondR]
    exact findA_foldl_setA_some hndR hflR []

/-- Claim C7, counterexample: `svcC7` satisfies the mutual-consistency
invariant, but redeeming its valid code for the already-bound device with a
failing token generator reaches an error boundary at which the device index
maps `devA` to the deleted credential value `tA`. -/
theorem consistency_broken_on_generation_failure :
    Consistent svcC7 ∧
    ¬ Consistent (applyOp svcC7 (Op.redeem 10 "123456" "devA" "Phone" none)) := by
  constructor
  · constructor
    · intro d v hd
      have he : findA d svcC7.deviceTokens = if "devA" = d then some "tA" else none := rfl
      rw [he] at hd
      by_cases hda : "devA" = d
      · rw [if_pos hda] at hd
        injection hd with hd
        rw [← hd]
        decide
      · rw [if_neg hda] at hd
        exact Option.noConfusion hd
    · intro v t hv
      have he : findA v svcC7.tokens = if "tA" = v then some tokA else none := rfl
      rw [he] at hv
      by_cases hta : "tA" = v
      · rw [if_pos hta] at hv
        injection hv with hv
        rw [← hv, ← hta]
        decide
      · rw [if_neg hta] at hv
        exact Option.noConfusion hv
  · intro hc
    have h1 := hc.1 "devA" "tA" (by decide)
    have h2 : findA "tA"
        (applyOp svcC7 (Op.redeem 10 "123456" "devA" "Phone" none)).tokens = none := by
      decide
    rw [h2] at h1
    simp at h1

/-- Claim C7 (amended): the mutual-consistency invariant — strengthened so
that each index row's target credential is bound to that very device and
map keys are distinct — is preserved by every operation of the service
(code issue, redeem, validate, refresh, revoke by value or by device,
eviction, sweep, and a construction-time load of a well-formed document
into an empty store) at every operation boundary, including boundaries
reached by returning an error, provided that in redemption the credential
generator succeeds with a value not already present in the credential
table; the claim's unconditional form fails at the boundary where
generation fails for an already-bound device. -/
theorem invariant_preserved (s : Service) (op : Op)
    (hInv : StrongInv s) (hOK : opOK s op) :
    StrongInv (applyOp s op) ∧ Consistent (applyOp s op) := by
  have hMain : StrongInv (applyOp s op) := by
    cases op with
    | issueCode now rnd => exact strongInv_issueCode s now rnd hInv
    | redeem now c d n g =>
      obtain ⟨v, rfl, hfresh⟩ := hOK
      exact strongInv_redeem s now c d n v hInv hfresh
    | validate now v => exact strongInv_validate s now v hInv
    | refresh now v => exact strongInv_refresh s now v hInv
    | revoke v => exact strongInv_revoke s v hInv
    | revokeByDevice d => exact strongInv_revokeDevice s d hInv
    | evict => exact strongInv_evict s hInv
    | sweep now => exact strongInv_sweep s now hInv
    | load now st =>
      obtain ⟨h1, h2, hdoc⟩ := hOK
      exact strongInv_load s now st h1 h2 hdoc
  exact ⟨hMain, strongInv_to_consistent hMain⟩

theorem invariant_preserved_witness :
    StrongInv (applyOp (newService cfgW)
      (Op.redeem 5 "123456" "devA" "Phone" (some "tokN"))) ∧
    Consistent (applyOp (newService cfgW)
      (Op.redeem 5 "123456" "devA" "Phone" (some "tokN"))) :=
  invariant_preserved (newService cfgW)
    (Op.redeem 5 "123456" "devA" "Phone" (some "tokN"))
    ⟨by decide, by decide,
     fun d v h => by
       rw [show findA d (newService cfgW).deviceTokens = none from rfl] at h
       exact Option.noConfusion h,
     fun v t h => by
       rw [show findA v (newService cfgW).tokens = none from rfl] at h
       exact Option.noConfusion h⟩
    ⟨"tokN", rfl, rfl⟩

end EchoHelix
